import Mathlib

/-!
Verification of the FST (File System Table) engine of pyisotools
(src/pyisotools/iso.py): the binary FST codec (load_file_systemv /
save_file_systemv / _read_nodes), the layout planner (pre_calc_metadata,
get_auto_blob_size), the override-table lookups (_get_alignment,
_get_greatest_alignment) and the build-level orchestration (from_root size
check, build).

Modelling conventions:
* byte buffers are `List Nat` with entries < 256;
* node names are modelled as their encoded byte sequences (each character one
  byte, as for the single-byte shift-jis range; `len(name)` then agrees with
  the byte length used for the running string-table offset);
* Python truthiness of `node._position` (None and 0 are falsy) is modelled by
  `pos_truthy`;
* fallible reads return `Except DErr`.
-/

/-- Modelled from the source of pyisotools.iohelper (align_int), which the
repository imports: rounds num up to a multiple of a power-of-two alignment
via the Python expression (num + (alignment - 1)) & -alignment.  For
alignment = 0 Python yields (num - 1) & 0 = 0. -/
def align_int (num alignment : Nat) : Nat :=
  if alignment = 0 then 0
  else (num + alignment - 1) - ((num + alignment - 1) &&& (alignment - 1))

/-- Python x & -g on nonnegative x, g > 0: clears the low bits of x below g,
i.e. x - (x &&& (g-1)); used by GamecubeISO.build at line 339. -/
def and_neg (x g : Nat) : Nat :=
  if g = 0 then 0 else x - (x &&& (g - 1))

/-- Big-endian value of a byte list (int.from_bytes(-, "big")). -/
def beVal (l : List Nat) : Nat := l.foldl (fun a x => a * 256 + x) 0

/-- 4-byte big-endian encoding (write_uint32 from pyisotools.iohelper). -/
def be32 (n : Nat) : List Nat :=
  [n / 16777216 % 256, n / 65536 % 256, n / 256 % 256, n % 256]

/-- 3-byte big-endian encoding (int.to_bytes(3, "big") for the name offset). -/
def be3 (n : Nat) : List Nat := [n / 65536 % 256, n / 256 % 256, n % 256]

/-- Python truthiness of the FSTNode._position field: None and 0 are falsy. -/
def pos_truthy : Option Nat → Bool
  | none => false
  | some n => n != 0

/-- The in-memory FST tree (FSTNode of pyisotools.fst, as used by iso.py).
A forest is the ordered child list of the (implicit) root; `fcons` is a file
node followed by its later siblings, `dcons` a directory node (with its
stored _id, _dirparent, _dirnext fields and children) followed by its later
siblings.  File fields: name, size, _fileoffset, _alignment, _position,
_exclude. -/
inductive Forest : Type where
  | nil : Forest
  | fcons (name : List Nat) (size fileoffset alignment : Nat)
      (position : Option Nat) (exclude : Bool) (rest : Forest) : Forest
  | dcons (name : List Nat) (exclude : Bool) (eid dirparent dirnext : Nat)
      (children : Forest) (rest : Forest) : Forest
deriving DecidableEq

/-- Number of nodes in the forest (all of them, excluded included). -/
def cnt_all : Forest → Nat
  | .nil => 0
  | .fcons _ _ _ _ _ _ rest => 1 + cnt_all rest
  | .dcons _ _ _ _ _ ch rest => 1 + cnt_all ch + cnt_all rest

/-- Number of nodes whose _exclude flag is false (the nodes that receive
entry ids and FST records; children of an excluded directory are still
visited by the flat rchildren walks of iso.py, so they are counted). -/
def cnt_included : Forest → Nat
  | .nil => 0
  | .fcons _ _ _ _ _ ex rest => (if ex then 0 else 1) + cnt_included rest
  | .dcons _ ex _ _ _ ch rest =>
      (if ex then 0 else 1) + cnt_included ch + cnt_included rest

/-- Modelled from the spec: FSTNode.size / len(node) for a directory node
(pyisotools.fst is not under src/).  Per section 3 and the glossary, dirNext
is the id one past the directory's last descendant and entry ids are assigned
to included nodes only, so the subtree length of a directory with child
forest ch is 1 + cnt_included ch (the node itself plus its included
descendants). -/
def subtree_len (ch : Forest) : Nat := 1 + cnt_included ch

/-- get_auto_blob_size's inner _collect_size (iso.py lines 547-557): folds
over the children; a child that is excluded or has a truthy _position is
skipped; a file rounds the running total up to its alignment and adds its
size; a directory recurses (no rounding after the recursion). -/
def collect_size : Forest → Nat → Nat
  | .nil, acc => acc
  | .fcons _ sz _ al pos ex rest, acc =>
      collect_size rest
        (if ex || pos_truthy pos then acc else align_int acc al + sz)
  | .dcons _ ex _ _ _ ch rest, acc =>
      collect_size rest (if ex then acc else collect_size ch acc)

/-- GamecubeISO.get_auto_blob_size (iso.py lines 546-559). -/
def get_auto_blob_size (f : Forest) : Nat := collect_size f 0

/-- GamecubeISO.pre_calc_metadata's walk over self.rchildren (iso.py lines
652-678), with the mutable (_dataOfs, _curEntry) state threaded explicitly
and pid the _id of the parent node (0 for the root, spec section 3: the root
is implicit id 0).  Returns the rewritten forest together with the final
(_dataOfs, _curEntry).  Field-for-field from the source:
* a file with truthy _position first gets _fileoffset = align_int(_position,
  _alignment) -- but, not being followed by a continue, a non-excluded file
  then falls through to the automatic branch which overwrites _fileoffset
  with align_int(_dataOfs, _alignment);
* the automatic branch then advances the running offset by the size alone
  (_dataOfs += child.size, iso.py line 675): the padding between _dataOfs
  and the aligned _fileoffset is never absorbed into _dataOfs, so the file
  may extend past the next file's starting _dataOfs;
* an excluded file ends with _fileoffset = 0 and is skipped;
* an excluded directory keeps its fields, and its children are still visited
  (rchildren is a flat walk) with the stale stored _id as their parent id;
* a non-excluded directory gets _id = _curEntry, _dirparent = pid and
  _dirnext = child.size + child._id. -/
def pre_calc_walk (pid : Nat) : Forest → Nat → Nat → Forest × Nat × Nat
  | .nil, d, c => (.nil, d, c)
  | .fcons nm sz off al pos ex rest, d, c =>
      let off1 := if pos_truthy pos then align_int (pos.getD 0) al else off
      if ex then
        let r := pre_calc_walk pid rest d c
        (.fcons nm sz 0 al pos ex r.1, r.2)
      else
        let o := align_int d al
        let _ := off1
        let r := pre_calc_walk pid rest (d + sz) (c + 1)
        (.fcons nm sz o al pos ex r.1, r.2)
  | .dcons nm ex id dp dn ch rest, d, c =>
      if ex then
        let rc := pre_calc_walk id ch d c
        let rr := pre_calc_walk pid rest rc.2.1 rc.2.2
        (.dcons nm ex id dp dn rc.1 rr.1, rr.2)
      else
        let dn2 := subtree_len ch + c
        let rc := pre_calc_walk c ch d (c + 1)
        let rr := pre_calc_walk pid rest rc.2.1 rc.2.2
        (.dcons nm ex c pid dn2 rc.1 rr.1, rr.2)

/-- GamecubeISO.pre_calc_metadata(startpos) on a tree: _dataOfs starts at
align_int(startpos, 4) and _curEntry at 1. -/
def pre_calc_metadata (startpos : Nat) (f : Forest) : Forest × Nat × Nat :=
  pre_calc_walk 0 f (align_int startpos 4) 1

/-- The final _dataOfs after pre_calc_metadata. -/
def pre_calc_final_ofs (startpos : Nat) (f : Forest) : Nat :=
  (pre_calc_metadata startpos f).2.1

/-- The (offset, size) pairs of the non-excluded files of a forest, in the
pre-order walk order (the order pre_calc_metadata places them and build
writes them). -/
def file_ranges : Forest → List (Nat × Nat)
  | .nil => []
  | .fcons _ sz off _ _ ex rest =>
      if ex then file_ranges rest else (off, sz) :: file_ranges rest
  | .dcons _ _ _ _ _ ch rest => file_ranges ch ++ file_ranges rest

/-- The _fileoffset fields of all non-excluded files in walk order. -/
def file_offsets (f : Forest) : List Nat := (file_ranges f).map Prod.fst

/-- GamecubeISO.save_file_systemv's record/string emission loop (iso.py lines
742-761) over self.rchildren, threaded state (_curEntry, _strOfs), pid the
_id of the parent (root = 0; for children of an excluded directory the stale
stored _id, since the excluded parent is skipped without receiving a fresh
id).  Returns (record bytes, string-table bytes, _curEntry, _strOfs).
For a non-excluded node it emits: type byte; 3-byte big-endian _strOfs; for a
directory u32 parent id then u32 (len(child) + _curEntry), for a file u32
_fileoffset then u32 size; and appends name ++ [0] to the string table,
advancing _strOfs by len(name) + 1. -/
def enc_walk (pid : Nat) : Forest → Nat → Nat → List Nat × List Nat × Nat × Nat
  | .nil, c, so => ([], [], c, so)
  | .fcons nm sz off _ _ ex rest, c, so =>
      if ex then enc_walk pid rest c so
      else
        let r := enc_walk pid rest (c + 1) (so + nm.length + 1)
        (0 :: (be3 so ++ be32 off ++ be32 sz) ++ r.1, (nm ++ [0]) ++ r.2.1,
          r.2.2)
  | .dcons nm ex id _ _ ch rest, c, so =>
      if ex then
        let rc := enc_walk id ch c so
        let rr := enc_walk pid rest rc.2.2.1 rc.2.2.2
        (rc.1 ++ rr.1, rc.2.1 ++ rr.2.1, rr.2.2)
      else
        let rc := enc_walk c ch (c + 1) (so + nm.length + 1)
        let rr := enc_walk pid rest rc.2.2.1 rc.2.2.2
        (1 :: (be3 so ++ be32 pid ++ be32 (subtree_len ch + c)) ++ rc.1 ++ rr.1,
          (nm ++ [0]) ++ rc.2.1 ++ rr.2.1, rr.2.2)

/-- GamecubeISO.save_file_systemv (iso.py lines 719-761), the byte content it
writes: the 8 fixed root-prefix bytes, then len(self) (modelled from the
spec as the included entry count, root itself included) as u32, then the
records, then the string table (strTableOfs = 12 * entry count lands exactly
at the end of the records).  The startpos parameter of save_file_systemv is
not used by its body. -/
def save_file_systemv (f : Forest) : List Nat :=
  1 :: 0 :: 0 :: 0 :: 0 :: 0 :: 0 :: 0 :: be32 (1 + cnt_included f)
    ++ (enc_walk 0 f 1 0).1 ++ (enc_walk 0 f 1 0).2.1

/-- Errors of the decode direction: the explicit InvalidFSTError raises of
load_file_systemv, and eof for a read primitive exhausting the buffer (in
Python a struct.error or an unterminated-string read from
pyisotools.iohelper, which is not an InvalidFSTError). -/
inductive DErr : Type where
  | invalidFST (msg : String) : DErr
  | eof : DErr
deriving DecidableEq

/-- read_ubyte: one byte at position p, failing on an exhausted buffer. -/
def read_u8 (b : List Nat) (p : Nat) : Except DErr Nat :=
  match b.drop p with
  | [] => .error .eof
  | x :: _ => .ok x

/-- int.from_bytes(fst.read(3), "big"): tolerant of short reads. -/
def read_be3 (b : List Nat) (p : Nat) : Nat := beVal ((b.drop p).take 3)

/-- read_uint32: 4-byte big-endian read, failing if fewer than 4 bytes
remain. -/
def read_uint32 (b : List Nat) (p : Nat) : Except DErr Nat :=
  if p + 4 ≤ b.length then .ok (beVal ((b.drop p).take 4)) else .error .eof

/-- The longest zero-free prefix before a 0 terminator, if one exists. -/
def take_until_zero : List Nat → Option (List Nat)
  | [] => none
  | 0 :: _ => some []
  | x :: rest => (take_until_zero rest).map (fun l => x :: l)

/-- Modelled from the spec: read_string of pyisotools.iohelper reads a
null-terminated string at the given offset; a read that never finds the
terminator before the end of the buffer is modelled as a failing read. -/
def read_string (b : List Nat) (p : Nat) : Except DErr (List Nat) :=
  match take_until_zero (b.drop p) with
  | some nm => .ok nm
  | none => .error .eof

mutual

/-- ISOBase._read_nodes (iso.py lines 70-97) with an explicit cursor and
fuel (the fuel is a modelling device bounding the recursion depth; every
call below is made with enough fuel that the 0 branch is never taken).
Returns (the decoded node as a forest-prefixing function, new cursor, new
_curEntry).  Reads the 12-byte record at pos, resolves the name at
strTab + nameOfs, assigns _id, and for a folder (type byte 1) decodes
children while _curEntry < _dirnext.  A decoded node gets the FSTNode.empty
defaults (modelled from the spec, section 3): alignment 4, no position, not
excluded.  Any type byte other than 1 is treated as a file. -/
def read_node (b : List Nat) (strTab : Nat) :
    Nat → Nat → Nat → Except DErr ((Forest → Forest) × Nat × Nat)
  | 0, _, _ => .error .eof
  | fuel + 1, pos, cur =>
    match read_u8 b pos with
    | .error e => .error e
    | .ok t =>
      let nameOfs := read_be3 b (pos + 1)
      match read_uint32 b (pos + 4) with
      | .error e => .error e
      | .ok entryOfs =>
        match read_uint32 b (pos + 8) with
        | .error e => .error e
        | .ok sz =>
          match read_string b (strTab + nameOfs) with
          | .error e => .error e
          | .ok nm =>
            if t = 1 then
              match read_children b strTab fuel (pos + 12) (cur + 1) sz with
              | .error e => .error e
              | .ok (ch, pos2, cur2) =>
                  .ok (.dcons nm false cur entryOfs sz ch, pos2, cur2)
            else
              .ok (.fcons nm sz entryOfs 4 none false, pos + 12, cur + 1)
termination_by structural fuel _pos _cur => fuel

/-- The child loop of _read_nodes / of load_file_systemv: decode records
while _curEntry < stop, threading cursor and _curEntry. -/
def read_children (b : List Nat) (strTab : Nat) :
    Nat → Nat → Nat → Nat → Except DErr (Forest × Nat × Nat)
  | 0, pos, cur, stop =>
      if cur < stop then .error .eof else .ok (.nil, pos, cur)
  | fuel + 1, pos, cur, stop =>
      if cur < stop then
        match read_node b strTab fuel pos cur with
        | .error e => .error e
        | .ok (node, pos1, cur1) =>
          match read_children b strTab fuel pos1 cur1 stop with
          | .error e => .error e
          | .ok (f, pos2, cur2) => .ok (node f, pos2, cur2)
      else .ok (.nil, pos, cur)
termination_by structural fuel _pos _cur _stop => fuel

end

deriving instance DecidableEq for Except

/-- Whether the first 8 bytes are the root-record prefix load_file_systemv
checks: type byte 1, 3-byte name offset 0, 4-byte field A 0. -/
def valid_root_header (b : List Nat) : Bool :=
  b.take 1 = [1] && (b.drop 1).take 3 = [0, 0, 0]
    && (b.drop 4).take 4 = [0, 0, 0, 0]

/-- GamecubeISO.load_file_systemv (iso.py lines 697-717): checks the three
root-prefix conditions (raising InvalidFSTError with the source's messages),
reads the entry count as u32 (this is the root record's field B, bytes
8..12), then decodes records from offset 12 while _curEntry < entryCount,
with the string table based at entryCount * 0xC. -/
def load_file_systemv (b : List Nat) : Except DErr Forest :=
  if b.take 1 ≠ [1] then .error (.invalidFST "Invalid Root flag found")
  else if (b.drop 1).take 3 ≠ [0, 0, 0] then
    .error (.invalidFST "Invalid Root string offset found")
  else if (b.drop 4).take 4 ≠ [0, 0, 0, 0] then
    .error (.invalidFST "Invalid Root offset found")
  else
    match read_uint32 b 8 with
    | .error e => .error e
    | .ok entryCount =>
      match read_children b (entryCount * 12) (b.length + 1) 12 1 entryCount with
      | .error e => .error e
      | .ok (f, _, _) => .ok f

/-- Membership of a character in a glob bracket set (ranges a-z by code
point, as in the regular-expression class fnmatch.translate produces). -/
def set_mem (c : Char) : List Char → Bool
  | [] => false
  | a :: '-' :: b :: rest => (a ≤ c && c ≤ b) || set_mem c rest
  | a :: rest => c = a || set_mem c rest

/-- Splits a glob bracket expression: given the pattern characters following
an opening bracket, returns (negate flag, set contents, remainder after the
closing bracket); none when there is no closing bracket (the bracket is then
a literal).  As in fnmatch.translate, a closing bracket that appears first
(possibly after the negation mark) is part of the set. -/
def split_bracket (l : List Char) : Option (Bool × List Char × List Char) :=
  let (neg, l1) := match l with
    | '!' :: t => (true, t)
    | _ => (false, l)
  let (pre, l2) := match l1 with
    | ']' :: t => ([']'], t)
    | _ => ([], l1)
  match l2.splitOn ']' with
  | [_] => none
  | [] => none
  | stuff :: rest1 :: more =>
      some (neg, pre ++ stuff, (more.intersperse [']']).foldl
        (fun a x => a ++ x) rest1)

/-- Python str.strip(): removes leading and trailing whitespace. -/
def py_strip (s : String) : String :=
  (((s.toList.dropWhile Char.isWhitespace).reverse.dropWhile
      Char.isWhitespace).reverse).asString

/-- Python string comparison (codepoint lexicographic), the order SortedDict
keeps its keys in. -/
def chars_lt : List Char → List Char → Bool
  | [], [] => false
  | [], _ :: _ => true
  | _ :: _, [] => false
  | a :: as, b :: bs => a < b || (a = b && chars_lt as bs)

/-- Python fnmatch glob matching on POSIX (no case folding): * matches any
sequence, ? any single character, [...] a character set ([!...] negated); a
bracket without a closing bracket is a literal character.  First argument is
the pattern, second the name, both as character lists; fueled for kernel
reducibility (each step shrinks pattern length + name length). -/
def glob_go : Nat → List Char → List Char → Bool
  | 0, _, _ => false
  | _ + 1, [], [] => true
  | _ + 1, [], _ :: _ => false
  | fuel + 1, '*' :: ps, [] => glob_go fuel ps []
  | fuel + 1, '*' :: ps, c :: cs =>
      glob_go fuel ps (c :: cs) || glob_go fuel ('*' :: ps) cs
  | _ + 1, '?' :: _, [] => false
  | fuel + 1, '?' :: ps, _ :: cs => glob_go fuel ps cs
  | fuel + 1, '[' :: ps, c :: cs =>
      match split_bracket ps with
      | some (neg, set, ps2) =>
          (if neg then !set_mem c set else set_mem c set) && glob_go fuel ps2 cs
      | none => c = '[' && glob_go fuel ps cs
  | _ + 1, '[' :: _, [] => false
  | fuel + 1, p :: ps, c :: cs => p = c && glob_go fuel ps cs
  | _ + 1, _ :: _, [] => false

/-- fnmatch.fnmatch(name, pattern) as used by iso.py. -/
def fnmatch (name pattern : String) : Bool :=
  glob_go (pattern.length + name.length + 1) pattern.toList name.toList

/-- ISOBase._get_alignment (iso.py lines 174-184) on a virtual path: iterate
the alignment table in its stored order (SortedDict: ascending key order),
return the value of the first pattern (stripped) whose glob matches the
path, default 4. -/
def get_alignment (tbl : List (String × Nat)) (path : String) : Nat :=
  match tbl with
  | [] => 4
  | (p, a) :: rest =>
      if fnmatch path (py_strip p) then a else get_alignment rest path

/-- ISOBase._get_location (iso.py lines 186-193): exact lookup in the
location table. -/
def get_location (tbl : List (String × Nat)) (path : String) : Option Nat :=
  (tbl.find? (fun pa => pa.1 = path)).map (fun pa => pa.2)

/-- ISOBase._get_excluded (iso.py lines 195-205): first glob match in the
exclusion table. -/
def get_excluded (tbl : List String) (path : String) : Bool :=
  tbl.any (fun p => fnmatch path (py_strip p))

/-- ISOBase._get_greatest_alignment (iso.py lines 168-172):
SortedDict.peekitem() returns the item at index -1, i.e. the value stored
under the lexicographically last pattern (not the greatest value); 4 when
the table is empty. -/
def get_greatest_alignment (tbl : List (String × Nat)) : Nat :=
  match tbl.getLast? with
  | some pa => pa.2
  | none => 4

/-- GamecubeISO.MaxSize. -/
def MaxSize : Nat := 1459978240

/-- Modelled from the spec: FSTNode.datasize, used by from_root's size check
(pyisotools.fst is not under src/); per the glossary it is the automatic
payload size, the quantity get_auto_blob_size computes. -/
def datasize (f : Forest) : Nat := get_auto_blob_size f

/-- The size check of GamecubeISO.from_root (iso.py lines 229-231): raises
FileSystemTooLargeError naming the computed total and MaxSize when
((fstOffset + fstSize + 0x7FF) & -0x800) + datasize > MaxSize.  Returns the
(total, limit) pair named by the raise, or none when no error is raised. -/
def from_root_check (fstOffset fstSize dsz : Nat) : Option (Nat × Nat) :=
  let total := and_neg (fstOffset + fstSize + 0x7FF) 0x800 + dsz
  if total > MaxSize then some (total, MaxSize) else none

/-- The startpos argument build computes for save_file_systemv (iso.py lines
339-340): (MaxSize - get_auto_blob_size()) & -_get_greatest_alignment(). -/
def build_startpos_arg (f : Forest) (tbl : List (String × Nat)) : Nat :=
  and_neg (MaxSize - get_auto_blob_size f) (get_greatest_alignment tbl)

/-- The data-region start the placement pass actually receives inside
save_file_systemv: the startpos parameter is unused by its body; with
useConfig=False and preCalc=True (build's call) it runs
pre_calc_metadata(self.MaxSize - self.get_auto_blob_size()). -/
def save_planner_start (startpos : Nat) (f : Forest) : Nat :=
  let _ := startpos
  MaxSize - get_auto_blob_size f

/-- The byte length of the image that build writes, from the FST write on
(iso.py lines 372-386).  After writing the FST the stream end is
fstOffset + fstSize (= fstEnd); for each written file the padding write
b"\x00" * (fileoffset - tell()) is empty when the repeat count is negative,
the payload write ends at fileoffset + size, and the closing seek(0, 2)
leaves the cursor at the stream end, so each file leaves the end at
max(end, fileoffset + size); the final b"\x00" * (MaxSize - tell()) pad is
empty when the end already exceeds MaxSize.  No exception is raised on any
of these paths. -/
def build_image_size (fstEnd : Nat) (ranges : List (Nat × Nat)) : Nat :=
  max MaxSize (ranges.foldl (fun e r => max e (r.1 + r.2)) fstEnd)

/-- The auto payload size as the spec's claim describes it (claim C3):
running total from 0; each file's contribution preceded by rounding the
total up to the file's alignment; each directory's subtotal rounded up to 4
after recursion; excluded and forced-location files skipped.  Written from
the spec's words for comparison with get_auto_blob_size. -/
def spec_auto_size : Forest → Nat → Nat
  | .nil, acc => acc
  | .fcons _ sz _ al pos ex rest, acc =>
      spec_auto_size rest
        (if ex || pos_truthy pos then acc else align_int acc al + sz)
  | .dcons _ ex _ _ _ ch rest, acc =>
      spec_auto_size rest (if ex then acc else align_int (spec_auto_size ch acc) 4)

/-- Half-open ranges (offset, size) overlap. -/
def ranges_overlap (r s : Nat × Nat) : Bool :=
  r.1 < s.1 + s.2 && s.1 < r.1 + r.2

/-- Some two ranges in the list overlap. -/
def has_overlap : List (Nat × Nat) → Bool
  | [] => false
  | r :: rest => rest.any (ranges_overlap r) || has_overlap rest

/-- Total string-table bytes a forest contributes: len(name) + 1 per
non-excluded node, in walk order. -/
def str_len : Forest → Nat
  | .nil => 0
  | .fcons nm _ _ _ _ ex rest => (if ex then 0 else nm.length + 1) + str_len rest
  | .dcons nm ex _ _ _ ch rest =>
      (if ex then 0 else nm.length + 1) + str_len ch + str_len rest

/-- Rewrites every file whose _position is literally 0 to one with no
_position entry, leaving everything else unchanged (for claim C10). -/
def zero_pos_to_none : Forest → Forest
  | .nil => .nil
  | .fcons nm sz off al pos ex rest =>
      .fcons nm sz off al (if pos = some 0 then none else pos) ex
        (zero_pos_to_none rest)
  | .dcons nm ex id dp dn ch rest =>
      .dcons nm ex id dp dn (zero_pos_to_none ch) (zero_pos_to_none rest)

/-- No file has a truthy _position (no effective forced location). -/
def no_forced_files : Forest → Bool
  | .nil => true
  | .fcons _ _ _ _ pos _ rest => !pos_truthy pos && no_forced_files rest
  | .dcons _ _ _ _ _ ch rest => no_forced_files ch && no_forced_files rest

/-- No directory is excluded. -/
def no_excluded_dirs : Forest → Bool
  | .nil => true
  | .fcons _ _ _ _ _ _ rest => no_excluded_dirs rest
  | .dcons _ ex _ _ _ ch rest =>
      !ex && no_excluded_dirs ch && no_excluded_dirs rest

/-- The total size of the non-excluded files of a forest, including files
under excluded directories (rchildren still reaches them): exactly the
amount pre_calc_metadata adds to _dataOfs, since the automatic branch
advances by size only. -/
def sum_sizes : Forest → Nat
  | .nil => 0
  | .fcons _ sz _ _ _ ex rest => (if ex then 0 else sz) + sum_sizes rest
  | .dcons _ _ _ _ _ ch rest => sum_sizes ch + sum_sizes rest

/-- Every file has alignment a and a size that is a multiple of a: under
this discipline (with a a power of two dividing the start) the running
_dataOfs stays a-aligned, every align_int is the identity and the placement
is exactly packed. -/
def uniform_aligned (a : Nat) : Forest → Bool
  | .nil => true
  | .fcons _ sz _ al _ _ rest =>
      al == a && sz % a == 0 && uniform_aligned a rest
  | .dcons _ _ _ _ _ ch rest => uniform_aligned a ch && uniform_aligned a rest

/-- The ranges are laid out consecutively between d and d2: each range
starts at or after the running position, which then moves past its end. -/
def packed_between (d : Nat) : List (Nat × Nat) → Nat → Prop
  | [], d2 => d ≤ d2
  | r :: rest, d2 => d ≤ r.1 ∧ packed_between (r.1 + r.2) rest d2

/-- l is a prefix of b. -/
def is_pref (l b : List Nat) : Prop := ∃ t, b = l ++ t

/-- The decode result is an InvalidFSTError. -/
def is_invalid_fst : Except DErr Forest → Bool
  | .error (.invalidFST _) => true
  | _ => false

/-- save_file_systemv as called by build (iso.py lines 339-340, 719-732):
useConfig=False, preCalc=True, so the body first runs
pre_calc_metadata(self.MaxSize - self.get_auto_blob_size()) (ignoring the
startpos argument) and then serializes. -/
def save_file_systemv_pre (f : Forest) : List Nat :=
  save_file_systemv (pre_calc_metadata (MaxSize - get_auto_blob_size f) f).1

/-- Decode a buffer with load_file_systemv and re-encode the resulting tree
with save_file_systemv after the layout-planner pass it performs
(useConfig=False, preCalc=True, override tables untouched); empty list if
decoding fails. -/
def round_trip (b : List Nat) : List Nat :=
  match load_file_systemv b with
  | .ok f => save_file_systemv_pre f
  | .error _ => []

/-- Per-node well-formedness for the byte-exact round trip: names are
nonzero bytes, every file has the FSTNode defaults the decoder also
produces (alignment 4, no position, not excluded) and a u32-representable
size, and no node is excluded. -/
def wf_nodes : Forest → Bool
  | .nil => true
  | .fcons nm sz _ al pos ex rest =>
      nm.all (fun x => x != 0 && x < 256) && al == 4 && pos.isNone && !ex
        && sz < 4294967296 && wf_nodes rest
  | .dcons nm ex _ _ _ ch rest =>
      nm.all (fun x => x != 0 && x < 256) && !ex && wf_nodes ch && wf_nodes rest

/-- Global well-formedness for the byte-exact round trip: default node
metadata, string table within the 3-byte name-offset space, auto payload
within the disc, entry count within u32. -/
def wf_default (f : Forest) : Bool :=
  wf_nodes f && str_len f ≤ 16777216 && get_auto_blob_size f ≤ MaxSize
    && 1 + cnt_all f < 4294967296

/-- The conditions under which decoding the encoding of a forest returns it
exactly, threaded along the encoder's walk (pid, _curEntry, _strOfs): names
are nonzero bytes, nothing is excluded, file metadata has the decoder's
defaults and u32-representable fields, directory linkage fields hold the
values the encoder recomputes, and the running string offset stays within
3 bytes. -/
def dec_ready : Forest → Nat → Nat → Nat → Bool
  | .nil, _, _, _ => true
  | .fcons nm sz off al pos ex rest, pid, c, so =>
      nm.all (fun x => x != 0) && al == 4 && pos.isNone && !ex
        && off < 4294967296 && sz < 4294967296 && so < 16777216
        && dec_ready rest pid (c + 1) (so + nm.length + 1)
  | .dcons nm ex id dp dn ch rest, pid, c, so =>
      nm.all (fun x => x != 0) && !ex && id == c && dp == pid
        && dn == subtree_len ch + c && pid < 4294967296 && dn < 4294967296
        && so < 16777216 && dec_ready ch c (c + 1) (so + nm.length + 1)
        && dec_ready rest pid (c + 1 + cnt_all ch)
          (so + nm.length + 1 + str_len ch)

/-- A single file a (16 bytes, default alignment 4) whose Location-table
entry forces offset 20480. -/
def tree_forced : Forest := .fcons [97] 16 0 4 (some 20480) false .nil

/-- A directory d containing a single 1-byte file a (default alignment). -/
def tree_dir1 : Forest :=
  .dcons [100] false 0 0 0 (.fcons [97] 1 0 4 none false .nil) .nil

/-- Two 5-byte files a and b whose alignment resolved to 0 from the
alignment table (fnmatch pattern mapped to 0). -/
def tree_align0 : Forest :=
  .fcons [97] 5 0 0 none false (.fcons [98] 5 0 0 none false .nil)

/-- A single 16-byte file with forced location 5. -/
def tree_loc5 : Forest := .fcons [97] 16 0 4 (some 5) false .nil

/-- A 2-byte file a with alignment 64 followed by a 100-byte file b with
alignment 8 (both power-of-two alignments the table can supply). -/
def tree_pow2 : Forest :=
  .fcons [97] 2 0 64 none false (.fcons [98] 100 0 8 none false .nil)

/-- Two 2-byte files a and b with the default alignment 4. -/
def tree_two2 : Forest :=
  .fcons [97] 2 0 4 none false (.fcons [98] 2 0 4 none false .nil)

/-- A single 16-byte default file a (well-formed, no overrides). -/
def tree_plain : Forest := .fcons [97] 16 0 4 none false .nil

/-- A valid FST image: root record with entry count 2, one file record
(name a at string offset 0, fileOffset 32768, size 16), string table
"a\x00".  A well-formed disc FST not produced by this tool's planner. -/
def buf_iso : List Nat :=
  [1, 0, 0, 0, 0, 0, 0, 0, 0, 0, 0, 2,
   0, 0, 0, 0, 0, 0, 128, 0, 0, 0, 0, 16, 97, 0]

/-- A truncated FST buffer: entry count claims 5 entries but only 3 file
records are present and there is no string table (the claim C6 scenario). -/
def buf_trunc : List Nat :=
  [1, 0, 0, 0, 0, 0, 0, 0, 0, 0, 0, 5,
   0, 0, 0, 0, 0, 0, 0, 0, 0, 0, 0, 0,
   0, 0, 0, 1, 0, 0, 0, 0, 0, 0, 0, 0,
   0, 0, 0, 2, 0, 0, 0, 0, 0, 0, 0, 0]

/-- Alignment table with patterns a.bin (value 64) and z.bin (value 8), in
SortedDict order. -/
def tbl_two : List (String × Nat) := [("a.bin", 64), ("z.bin", 8)]

/-- Alignment table of the spec's two-pattern scenario, in SortedDict order
("*.bin" sorts before "a*"). -/
def tbl_scenario : List (String × Nat) := [("*.bin", 32), ("a*", 8)]

/- ------------------------------------------------------------------ -/
/- Theorems.                                                          -/
/- ------------------------------------------------------------------ -/

theorem align_int_pow2 (n k : Nat) :
    align_int n (2 ^ k) = 2 ^ k * ((n + 2 ^ k - 1) / 2 ^ k) := by
  have hpos : 0 < 2 ^ k := Nat.pos_pow_of_pos k (by norm_num)
  have hne : 2 ^ k ≠ 0 := Nat.pos_iff_ne_zero.mp hpos
  unfold align_int
  rw [if_neg hne, Nat.and_pow_two_sub_one_eq_mod]
  have := Nat.div_add_mod (n + 2 ^ k - 1) (2 ^ k)
  omega

theorem le_align_int (n a : Nat) (h : a ≠ 0) : n ≤ align_int n a := by
  unfold align_int
  rw [if_neg h]
  have h2 : (n + a - 1) &&& (a - 1) ≤ a - 1 := Nat.and_le_right
  omega

theorem align_int_le (n a : Nat) : align_int n a ≤ n + a - 1 := by
  unfold align_int
  by_cases h : a = 0
  · simp [h]
  · rw [if_neg h]; omega

theorem dvd_align_int_pow2 (n k : Nat) : 2 ^ k ∣ align_int n (2 ^ k) := by
  rw [align_int_pow2]; exact Dvd.intro _ rfl

theorem align_int_add_left (S n k : Nat) (h : 2 ^ k ∣ S) :
    align_int (S + n) (2 ^ k) = S + align_int n (2 ^ k) := by
  obtain ⟨s, rfl⟩ := h
  have hpos : 0 < 2 ^ k := Nat.pos_pow_of_pos k (by norm_num)
  rw [align_int_pow2, align_int_pow2]
  have harg : 2 ^ k * s + n + 2 ^ k - 1 = 2 ^ k * s + (n + 2 ^ k - 1) := by omega
  rw [harg, Nat.mul_add_div hpos, Nat.mul_add]

theorem align_int_of_dvd (n k : Nat) (h : 2 ^ k ∣ n) :
    align_int n (2 ^ k) = n := by
  have h0 : align_int 0 (2 ^ k) = 0 := by
    rw [align_int_pow2]
    have : 2 ^ k - 1 < 2 ^ k := by
      have : 0 < 2 ^ k := Nat.pos_pow_of_pos k (by norm_num)
      omega
    rw [Nat.zero_add, Nat.div_eq_of_lt this, Nat.mul_zero]
  have := align_int_add_left n 0 k h
  simpa [h0] using this

theorem align_int_four_dvd (n : Nat) : 4 ∣ align_int n 4 := by
  have h4 : (4 : Nat) = 2 ^ 2 := by norm_num
  rw [h4]; exact dvd_align_int_pow2 n 2

/-- Claim C2, evaluated at the failing input (code bug): for the single
non-excluded file a with forced location 20480 (already a multiple of its
alignment 4) and a planner pass from startpos 1000, pre_calc_metadata first
assigns align_int(20480, 4) = 20480 but -- the forced-location branch not
being followed by a continue -- falls through to the automatic branch and
overwrites the offset with align_int(1000, 4) = 1000, so the file does not
end at its forced location. -/
theorem C2_forced_location_clobbered :
    file_offsets (pre_calc_metadata 1000 tree_forced).1 = [1000]
      ∧ align_int 20480 4 = 20480 ∧ (1000 : Nat) ≠ 20480 := by decide

/-- Claim C9, evaluated at the failing input (code bug): with alignment
table {a.bin: 64, z.bin: 8} and a 10-byte auto payload, build computes
(MaxSize - 10) & -_get_greatest_alignment(); _get_greatest_alignment
returns the value stored under the lexicographically last pattern (8), not
the largest configured alignment (64); and save_file_systemv ignores its
startpos parameter entirely, so the placement pass actually starts at the
unrounded MaxSize - 10 = 1459978230, not at the claimed
(MaxSize - 10) & -64 = 1459978176. -/
theorem C9_planner_start_diverges :
    get_greatest_alignment tbl_two = 8
      ∧ build_startpos_arg (.fcons [97] 10 0 4 none false .nil) tbl_two
          = 1459978224
      ∧ save_planner_start
          (build_startpos_arg (.fcons [97] 10 0 4 none false .nil) tbl_two)
          (.fcons [97] 10 0 4 none false .nil) = 1459978230
      ∧ and_neg (MaxSize - 10) 64 = 1459978176
      ∧ (1459978230 : Nat) ≠ 1459978176 := by decide

theorem collect_size_zero_pos (f : Forest) :
    ∀ acc, collect_size (zero_pos_to_none f) acc = collect_size f acc := by
  induction f with
  | nil => intro acc; rfl
  | fcons nm sz off al pos ex rest ih =>
      intro acc
      simp only [zero_pos_to_none, collect_size, ih]
      congr 2
      by_cases h : pos = some 0
      · subst h; simp [pos_truthy]
      · simp [h]
  | dcons nm ex id dp dn ch rest ihc ihr =>
      intro acc
      simp only [zero_pos_to_none, collect_size, ihc, ihr]

theorem cnt_included_zero_pos (f : Forest) :
    cnt_included (zero_pos_to_none f) = cnt_included f := by
  induction f with
  | nil => rfl
  | fcons nm sz off al pos ex rest ih =>
      simp only [zero_pos_to_none, cnt_included, ih]
  | dcons nm ex id dp dn ch rest ihc ihr =>
      simp only [zero_pos_to_none, cnt_included, ihc, ihr]

theorem subtree_len_zero_pos (f : Forest) :
    subtree_len (zero_pos_to_none f) = subtree_len f := by
  unfold subtree_len; rw [cnt_included_zero_pos]

theorem pre_calc_walk_zero_pos (f : Forest) :
    ∀ pid d c,
      pre_calc_walk pid (zero_pos_to_none f) d c
        = (zero_pos_to_none (pre_calc_walk pid f d c).1,
            (pre_calc_walk pid f d c).2) := by
  induction f with
  | nil => intro pid d c; rfl
  | fcons nm sz off al pos ex rest ih =>
      intro pid d c
      have hpt : pos_truthy (if pos = some 0 then none else pos)
          = pos_truthy pos := by
        by_cases h : pos = some 0
        · subst h; simp [pos_truthy]
        · simp [h]
      simp only [zero_pos_to_none, pre_calc_walk, hpt, ih]
      by_cases hex : ex <;> simp [hex, zero_pos_to_none]
  | dcons nm ex id dp dn ch rest ihc ihr =>
      intro pid d c
      simp only [zero_pos_to_none, pre_calc_walk, ihc, ihr,
        subtree_len_zero_pos]
      by_cases hex : ex <;> simp [hex, zero_pos_to_none]

theorem file_ranges_zero_pos (f : Forest) :
    file_ranges (zero_pos_to_none f) = file_ranges f := by
  induction f with
  | nil => rfl
  | fcons nm sz off al pos ex rest ih =>
      simp only [zero_pos_to_none, file_ranges, ih]
  | dcons nm ex id dp dn ch rest ihc ihr =>
      simp only [zero_pos_to_none, file_ranges, ihc, ihr]

/-- Claim C10 (confirmed): a file whose Location-table entry maps it to
offset 0 gets _position = 0, which is falsy in every check the planner
makes (pos_truthy), so the whole layout pass treats the tree exactly as if
the entry were absent: the automatic payload size, every placed (offset,
size) pair and the final (_dataOfs, _curEntry) state are unchanged when
each position 0 is replaced by no position at all; in particular the file
is counted in the automatic payload and placed automatically, not at
absolute offset 0. -/
theorem C10_zero_location_is_automatic (f : Forest) (s : Nat) :
    get_auto_blob_size (zero_pos_to_none f) = get_auto_blob_size f
      ∧ file_ranges (pre_calc_metadata s (zero_pos_to_none f)).1
          = file_ranges (pre_calc_metadata s f).1
      ∧ (pre_calc_metadata s (zero_pos_to_none f)).2
          = (pre_calc_metadata s f).2 := by
  refine ⟨collect_size_zero_pos f 0, ?_, ?_⟩
  · unfold pre_calc_metadata
    rw [pre_calc_walk_zero_pos]
    exact file_ranges_zero_pos _
  · unfold pre_calc_metadata
    rw [pre_calc_walk_zero_pos]

/-- Claim C7 (confirmed): _get_alignment iterates the alignment table in its
stored order; when that order is strictly sorted by pattern (as SortedDict
guarantees, with Python string order = codepoint lexicographic = chars_lt),
the result is the value of the lexicographically first pattern that
glob-matches the path -- a matching pattern p all of whose smaller table
patterns fail to match wins, regardless of any later matching pattern -- and
4 when no pattern matches. -/
theorem C7_alignment_first_match (tbl : List (String × Nat)) (path : String) :
    (∀ p v, (p, v) ∈ tbl → fnmatch path (py_strip p) = true →
        (∀ qw, qw ∈ tbl → chars_lt qw.1.toList p.toList = true →
          fnmatch path (py_strip qw.1) = false) →
        List.Pairwise
          (fun a b : String × Nat => chars_lt a.1.toList b.1.toList = true)
          tbl →
        get_alignment tbl path = v)
      ∧ ((∀ qw, qw ∈ tbl → fnmatch path (py_strip qw.1) = false) →
        get_alignment tbl path = 4) := by
  induction tbl with
  | nil =>
      refine ⟨fun p v hm => absurd hm (by simp), fun _ => rfl⟩
  | cons qw0 rest ih =>
      obtain ⟨q, w⟩ := qw0
      constructor
      · intro p v hmem hmatch hmin hsort
        by_cases hq : fnmatch path (py_strip q) = true
        · have hpv : (p, v) = (q, w) := by
            rcases List.mem_cons.mp hmem with h | h
            · exact h
            · exfalso
              have hlt : chars_lt q.toList p.toList = true := by
                have := (List.pairwise_cons.mp hsort).1 (p, v) h
                simpa using this
              have hfalse := hmin (q, w) (List.mem_cons_self _ _) hlt
              rw [hq] at hfalse
              exact Bool.true_eq_false.mp hfalse
          have hv : w = v := by
            have := congrArg Prod.snd hpv
            simpa using this.symm
          rw [← hv]
          simp [get_alignment, hq]
        · have hq2 : fnmatch path (py_strip q) = false := by
            simpa using hq
          have hmem2 : (p, v) ∈ rest := by
            rcases List.mem_cons.mp hmem with h | h
            · exfalso
              have hpq : p = q := by
                have := congrArg Prod.fst h
                simpa using this
              rw [hpq] at hmatch
              rw [hmatch] at hq2
              exact Bool.true_eq_false.mp hq2
            · exact h
          have := ih.1 p v hmem2 hmatch
            (fun x hx hlt => hmin x (List.mem_cons_of_mem _ hx) hlt)
            (List.pairwise_cons.mp hsort).2
          simpa [get_alignment, hq2] using this
      · intro hnone
        have hq : fnmatch path (py_strip q) = false :=
          hnone (q, w) (List.mem_cons_self _ _)
        have := ih.2 (fun x hx => hnone x (List.mem_cons_of_mem _ hx))
        simpa [get_alignment, hq] using this

/-- Witness for C7: the spec's two-pattern scenario.  Both patterns match
abc.bin; the table in SortedDict order starts with the lexicographically
smaller pattern *.bin, and the result is its value 32, even though a* (value
8) also matches. -/
theorem C7_alignment_first_match_scenario :
    get_alignment tbl_scenario "abc.bin" = 32
      ∧ fnmatch "abc.bin" (py_strip "a*") = true := by
  constructor
  · exact (C7_alignment_first_match tbl_scenario "abc.bin").1 "*.bin" 32
      (by decide) (by decide) (by decide) (by decide)
  · decide

theorem packed_between_le (l : List (Nat × Nat)) :
    ∀ d d2, packed_between d l d2 → d ≤ d2 := by
  induction l with
  | nil => intro d d2 h; exact h
  | cons r rest ih =>
      intro d d2 h
      have h1 := h.1
      have h2 := ih _ _ h.2
      omega

theorem packed_between_mono_start (l : List (Nat × Nat)) :
    ∀ d d2 m, d ≤ m → packed_between m l d2 → packed_between d l d2 := by
  induction l with
  | nil => intro d d2 m hdm h; exact le_trans hdm h
  | cons r rest ih =>
      intro d d2 m hdm h
      exact ⟨le_trans hdm h.1, h.2⟩

theorem packed_between_append (l1 l2 : List (Nat × Nat)) :
    ∀ d m d2, packed_between d l1 m → packed_between m l2 d2 →
      packed_between d (l1 ++ l2) d2 := by
  induction l1 with
  | nil => intro d m d2 h1 h2; exact packed_between_mono_start _ _ _ _ h1 h2
  | cons r rest ih =>
      intro d m d2 h1 h2
      exact ⟨h1.1, ih _ _ _ h1.2 h2⟩

theorem packed_between_mem (l : List (Nat × Nat)) :
    ∀ d d2, packed_between d l d2 → ∀ x ∈ l, d ≤ x.1 := by
  induction l with
  | nil => intro d d2 _ x hx; exact absurd hx (by simp)
  | cons r rest ih =>
      intro d d2 h x hx
      rcases List.mem_cons.mp hx with hx | hx
      · rw [hx]; exact h.1
      · have := ih _ _ h.2 x hx
        have h1 := h.1
        omega

theorem packed_between_no_overlap (l : List (Nat × Nat)) :
    ∀ d d2, packed_between d l d2 → has_overlap l = false := by
  induction l with
  | nil => intro d d2 _; rfl
  | cons r rest ih =>
      intro d d2 h
      have hrest : has_overlap rest = false := ih _ _ h.2
      have hany : rest.any (ranges_overlap r) = false := by
        rw [List.any_eq_false]
        intro x hx
        have hge : r.1 + r.2 ≤ x.1 := packed_between_mem _ _ _ h.2 x hx
        simp only [ranges_overlap]
        simp only [Bool.and_eq_true, decide_eq_true_eq, not_and]
        intro _
        omega
      simp [has_overlap, hany, hrest]

theorem pre_calc_walk_packed (f : Forest) (k : Nat) :
    ∀ pid d c, uniform_aligned (2 ^ k) f = true → 2 ^ k ∣ d →
      packed_between d (file_ranges (pre_calc_walk pid f d c).1)
        (pre_calc_walk pid f d c).2.1
      ∧ 2 ^ k ∣ (pre_calc_walk pid f d c).2.1 := by
  induction f with
  | nil =>
      intro pid d c _ hd
      refine ⟨?_, hd⟩
      simp [pre_calc_walk, file_ranges, packed_between]
  | fcons nm sz off al pos ex rest ih =>
      intro pid d c h hd
      simp only [uniform_aligned, Bool.and_eq_true, beq_iff_eq] at h
      obtain ⟨⟨hal, hsz⟩, hrest⟩ := h
      by_cases hex : ex = true
      · simp only [pre_calc_walk, hex, if_true]
        simpa [file_ranges] using ih pid d c hrest hd
      · simp only [Bool.not_eq_true] at hex
        simp only [pre_calc_walk, hex, Bool.false_eq_true, if_false]
        simp only [file_ranges, Bool.false_eq_true, if_false]
        subst hal
        have ho : align_int d (2 ^ k) = d := align_int_of_dvd d k hd
        rw [ho]
        have hd2 : 2 ^ k ∣ d + sz :=
          Nat.dvd_add hd (Nat.dvd_of_mod_eq_zero hsz)
        have hrec := ih pid (d + sz) (c + 1) hrest hd2
        exact ⟨⟨le_refl d, hrec.1⟩, hrec.2⟩
  | dcons nm ex id dp dn ch rest ihc ihr =>
      intro pid d c h hd
      simp only [uniform_aligned, Bool.and_eq_true] at h
      obtain ⟨hch, hrest⟩ := h
      by_cases hex : ex = true
      · simp only [pre_calc_walk, hex, if_true, file_ranges]
        have h1 := ihc id d c hch hd
        have h2 := ihr pid (pre_calc_walk id ch d c).2.1
          (pre_calc_walk id ch d c).2.2 hrest h1.2
        exact ⟨packed_between_append _ _ _ _ _ h1.1 h2.1, h2.2⟩
      · simp only [Bool.not_eq_true] at hex
        simp only [pre_calc_walk, hex, Bool.false_eq_true, if_false,
          file_ranges]
        have h1 := ihc c d (c + 1) hch hd
        have h2 := ihr pid (pre_calc_walk c ch d (c + 1)).2.1
          (pre_calc_walk c ch d (c + 1)).2.2 hrest h1.2
        exact ⟨packed_between_append _ _ _ _ _ h1.1 h2.1, h2.2⟩

/-- Claim C4, counterexample: the planner does assign overlapping ranges and
nothing fails.  With power-of-two alignments -- a 2-byte file of alignment
64 then a 100-byte file of alignment 8, placed from the 4-aligned start 4 --
pre_calc_metadata assigns the ranges [64, 66) and [8, 108): the running
_dataOfs advances by the size alone (iso.py line 675), so after the first
file it is 6, the second file is aligned up only to 8, and its bytes cover
the first file's.  The same happens with the degenerate alignment 0 the
table can also supply (align_int(x, 0) = 0 in Python): both 5-byte files
land at [0, 5).  No LayoutConflict exists anywhere in the code (the name
does not occur), and build writes the payloads over each other silently
(its padding writes are empty for negative counts and it seeks to each
_fileoffset before writing). -/
theorem C4_overlap_assigned_silently :
    file_ranges (pre_calc_metadata 4 tree_pow2).1 = [(64, 2), (8, 100)]
      ∧ has_overlap (file_ranges (pre_calc_metadata 4 tree_pow2).1) = true
      ∧ file_ranges (pre_calc_metadata 100 tree_align0).1 = [(0, 5), (0, 5)]
      ∧ has_overlap (file_ranges (pre_calc_metadata 100 tree_align0).1)
          = true := by decide

/-- Claim C4 as amended: no LayoutConflict exists in the code, and the
planner can assign two included files overlapping ranges even with
power-of-two alignments, because _dataOfs advances by each file's size
alone and never absorbs alignment padding; the build then writes the
overlapping payloads silently.  No overlap is assigned when every file has
one common power-of-two alignment that divides the 4-aligned start and
every file size (then every align_int is the identity, the placement is
exactly packed and no two included files' ranges intersect). -/
theorem C4_no_overlap_when_aligned (f : Forest) (s k : Nat)
    (h : uniform_aligned (2 ^ k) f = true) (hd : 2 ^ k ∣ align_int s 4) :
    has_overlap (file_ranges (pre_calc_metadata s f).1) = false :=
  packed_between_no_overlap _ _ _
    (pre_calc_walk_packed f k 0 (align_int s 4) 1 h hd).1

/-- Witness for the amended C4 at a concrete tree. -/
theorem C4_no_overlap_witness :
    uniform_aligned (2 ^ 2) tree_plain = true
      ∧ (2 ^ 2 : Nat) ∣ align_int 100 4
      ∧ has_overlap (file_ranges (pre_calc_metadata 100 tree_plain).1)
          = false :=
  ⟨by decide, by decide,
    C4_no_overlap_when_aligned tree_plain 100 2 (by decide) (by decide)⟩

/-- Claim C3, counterexample: (i) for a single non-excluded file with a
forced location, get_auto_blob_size skips it (total 0) while
pre_calc_metadata still places it in the automatic region and consumes its
16 bytes (final data offset 1016 from an aligned start of 1000), so the
computed payload size does not equal the bytes the placement pass consumes
and the file is placed outside [capacity - autoPayloadSize, capacity);
(ii) for a directory holding one 1-byte file, the algorithm the claim
describes (subtotal rounded up to 4 after each directory) yields 4, but
get_auto_blob_size performs no such rounding and yields 1;
(iii) for two 2-byte files of alignment 4 (no forced locations, no
exclusions) get_auto_blob_size counts the padding between them (total 6),
but the placement pass advances _dataOfs by the sizes alone and consumes
only 4 bytes beyond its aligned start 100, while the second file occupies
[104, 106) -- beyond the final _dataOfs 104, so the two computations do not
mirror each other even on plain trees. -/
theorem C3_blob_and_placement_diverge :
    (get_auto_blob_size tree_forced = 0
        ∧ pre_calc_final_ofs 1000 tree_forced = 1016
        ∧ align_int 1000 4 = 1000)
      ∧ (get_auto_blob_size tree_dir1 = 1 ∧ spec_auto_size tree_dir1 0 = 4)
      ∧ (get_auto_blob_size tree_two2 = 6
        ∧ pre_calc_final_ofs 100 tree_two2 = 104
        ∧ file_ranges (pre_calc_metadata 100 tree_two2).1
            = [(100, 2), (104, 2)]) := by
  decide

theorem pre_calc_walk_consumes (f : Forest) :
    ∀ pid d c, (pre_calc_walk pid f d c).2.1 = d + sum_sizes f := by
  induction f with
  | nil => intro pid d c; simp [pre_calc_walk, sum_sizes]
  | fcons nm sz off al pos ex rest ih =>
      intro pid d c
      by_cases hex : ex = true
      · simp [pre_calc_walk, hex, sum_sizes, ih]
      · simp only [Bool.not_eq_true] at hex
        simp [pre_calc_walk, hex, sum_sizes, ih]
        omega
  | dcons nm ex id dp dn ch rest ihc ihr =>
      intro pid d c
      by_cases hex : ex = true
      · simp [pre_calc_walk, hex, sum_sizes, ihc, ihr]
        omega
      · simp only [Bool.not_eq_true] at hex
        simp [pre_calc_walk, hex, sum_sizes, ihc, ihr]
        omega

theorem collect_size_eq_sum (f : Forest) (k : Nat) :
    ∀ acc, no_forced_files f = true → no_excluded_dirs f = true →
      uniform_aligned (2 ^ k) f = true → 2 ^ k ∣ acc →
      collect_size f acc = acc + sum_sizes f
        ∧ 2 ^ k ∣ acc + sum_sizes f := by
  induction f with
  | nil => intro acc _ _ _ hd; exact ⟨rfl, by simpa [sum_sizes] using hd⟩
  | fcons nm sz off al pos ex rest ih =>
      intro acc hnf hned hu hd
      simp only [no_forced_files, Bool.and_eq_true, Bool.not_eq_true'] at hnf
      obtain ⟨hp, hnfr⟩ := hnf
      simp only [no_excluded_dirs] at hned
      simp only [uniform_aligned, Bool.and_eq_true, beq_iff_eq] at hu
      obtain ⟨⟨hal, hsz⟩, hur⟩ := hu
      by_cases hex : ex = true
      · simp only [collect_size, sum_sizes, hex, Bool.true_or, if_true]
        have := ih acc hnfr hned hur hd
        simpa using this
      · simp only [Bool.not_eq_true] at hex
        subst hex hal
        simp only [collect_size, sum_sizes, hp, Bool.false_or,
          Bool.false_eq_true, if_false]
        rw [align_int_of_dvd acc k hd]
        have hd2 : 2 ^ k ∣ acc + sz :=
          Nat.dvd_add hd (Nat.dvd_of_mod_eq_zero hsz)
        have := ih (acc + sz) hnfr hned hur hd2
        constructor
        · rw [this.1]; omega
        · have h2 := this.2
          rw [Nat.add_assoc] at h2
          exact h2
  | dcons nm ex id dp dn ch rest ihc ihr =>
      intro acc hnf hned hu hd
      simp only [no_forced_files, Bool.and_eq_true] at hnf
      obtain ⟨hnfc, hnfr⟩ := hnf
      simp only [no_excluded_dirs, Bool.and_eq_true, Bool.not_eq_true'] at hned
      obtain ⟨⟨hex, hnedc⟩, hnedr⟩ := hned
      simp only [uniform_aligned, Bool.and_eq_true] at hu
      obtain ⟨huc, hur⟩ := hu
      subst hex
      simp only [collect_size, sum_sizes, Bool.false_eq_true, if_false]
      have hch := ihc acc hnfc hnedc huc hd
      rw [hch.1]
      have hrest := ihr (acc + sum_sizes ch) hnfr hnedr hur hch.2
      constructor
      · rw [hrest.1]; omega
      · have h2 := hrest.2
        rw [Nat.add_assoc] at h2
        exact h2

/-- Claim C3 as amended: get_auto_blob_size accumulates a running total with
per-file align-then-add and recursive descent, with no rounding after a
directory, skipping excluded nodes (whole excluded subtrees) and
forced-location files.  The placement pass, however, advances _dataOfs by
each non-excluded file's size alone -- forced or not, alignment padding
never absorbed -- so it consumes exactly the sum of the included file sizes
beyond its aligned start; that equals get_auto_blob_size only when no file
has a forced location, no directory is excluded, and no alignment padding
accrues (e.g. one common power-of-two alignment dividing every file size).
Forced-location files make the blob undercount the consumption, alignment
padding makes it overcount, and a padded file's bytes extend past the
region the blob accounts for. -/
theorem C3_blob_matches_placement (f : Forest) (s k : Nat)
    (h1 : no_forced_files f = true) (h2 : no_excluded_dirs f = true)
    (h3 : uniform_aligned (2 ^ k) f = true) :
    pre_calc_final_ofs s f = align_int s 4 + sum_sizes f
      ∧ get_auto_blob_size f = sum_sizes f := by
  constructor
  · unfold pre_calc_final_ofs pre_calc_metadata
    exact pre_calc_walk_consumes f 0 (align_int s 4) 1
  · unfold get_auto_blob_size
    have := collect_size_eq_sum f k 0 h1 h2 h3 (Nat.dvd_zero _)
    simpa using this.1

/-- Witness for the amended C3 at a concrete tree. -/
theorem C3_blob_matches_placement_witness :
    no_forced_files tree_plain = true ∧ no_excluded_dirs tree_plain = true
      ∧ uniform_aligned (2 ^ 2) tree_plain = true
      ∧ pre_calc_final_ofs 100 tree_plain
          = align_int 100 4 + sum_sizes tree_plain
      ∧ get_auto_blob_size tree_plain = sum_sizes tree_plain := by
  have h := C3_blob_matches_placement tree_plain 100 2 (by decide) (by decide)
    (by decide)
  exact ⟨by decide, by decide, by decide, h.1, h.2⟩

/-- Claim C8, counterexample: a root holding one 16-byte file with forced
location 5.  get_auto_blob_size (the spec-modelled datasize) skips
forced-location files, so from_root's capacity check passes (total 18432 for
fstOffset 16384, fstSize 38), yet the placement pass -- which consumes space
even for forced-location files, starting at the unrounded MaxSize - 0 --
places the file at offset MaxSize, and the built image ends at
MaxSize + 16: the build completes without error but the final image size
exceeds the capacity instead of equalling it. -/
theorem C8_capacity_check_passes_but_image_overflows :
    from_root_check 16384 38 (datasize tree_loc5) = none
      ∧ build_image_size (16384 + 38)
          (file_ranges (pre_calc_metadata
            (save_planner_start (build_startpos_arg tree_loc5 []) tree_loc5)
            tree_loc5).1)
          = MaxSize + 16
      ∧ MaxSize + 16 ≠ MaxSize := by decide

theorem foldl_max_le (l : List (Nat × Nat)) :
    ∀ a M, l.foldl (fun e r => max e (r.1 + r.2)) a ≤ M
      ↔ a ≤ M ∧ ∀ r ∈ l, r.1 + r.2 ≤ M := by
  induction l with
  | nil => intro a M; simp
  | cons r rest ih =>
      intro a M
      simp only [List.foldl_cons, ih, Nat.max_le, List.mem_cons]
      constructor
      · rintro ⟨⟨ha, hr⟩, hrest⟩
        refine ⟨ha, ?_⟩
        rintro x (rfl | hx)
        · exact hr
        · exact hrest x hx
      · rintro ⟨ha, hall⟩
        exact ⟨⟨ha, hall r (Or.inl rfl)⟩, fun x hx => hall x (Or.inr hx)⟩

/-- Claim C8 as amended: from_root raises its capacity error, naming the
computed total and the limit, exactly when ((fstOffset + fstSize + 0x7FF) &
-0x800) + datasize exceeds MaxSize; when it does not fire the build runs to
completion, and the final image size equals the capacity exactly if and only
if every written file's end lies within the capacity (which a
forced-location file can violate, as the counterexample shows). -/
theorem C8_capacity_check_and_final_size (fo fs dsz fstEnd : Nat)
    (ranges : List (Nat × Nat)) :
    (from_root_check fo fs dsz
        = some (and_neg (fo + fs + 0x7FF) 0x800 + dsz, MaxSize)
      ↔ MaxSize < and_neg (fo + fs + 0x7FF) 0x800 + dsz)
    ∧ (fstEnd ≤ MaxSize →
        (build_image_size fstEnd ranges = MaxSize
          ↔ ∀ r ∈ ranges, r.1 + r.2 ≤ MaxSize)) := by
  constructor
  · unfold from_root_check
    by_cases h : MaxSize < and_neg (fo + fs + 0x7FF) 0x800 + dsz
    · simp only [gt_iff_lt, h, if_true, iff_true]
    · simp only [gt_iff_lt, h, if_false, iff_false]
      simp
  · intro hfst
    unfold build_image_size
    have hmax : ∀ x : Nat, max MaxSize x = MaxSize ↔ x ≤ MaxSize := by
      intro x
      omega
    rw [hmax]
    constructor
    · intro h
      exact ((foldl_max_le ranges fstEnd MaxSize).mp h).2
    · intro h
      exact (foldl_max_le ranges fstEnd MaxSize).mpr ⟨hfst, h⟩

/-- Witness for the amended C8 at concrete values. -/
theorem C8_capacity_witness :
    (100 : Nat) ≤ MaxSize ∧ build_image_size 100 [(200, 16)] = MaxSize :=
  ⟨by decide,
    ((C8_capacity_check_and_final_size 16384 38 0 100 [(200, 16)]).2
        (by decide)).mpr (by decide)⟩

/-- Claim C5, counterexample: a valid 2-entry FST whose bytes 8..12 hold the
entry count 2 (nonzero).  Under the claim, any deviation from zero in field
B of the first 12 bytes should fail with InvalidFSTError; instead
load_file_systemv checks only the first 8 bytes, reads these bytes as the
entry count, and decodes successfully (records start at offset 12, string
table at entryCount * 12 = 24). -/
theorem C5_field_b_is_entry_count :
    ((buf_iso.drop 8).take 4 = [0, 0, 0, 2]
        ∧ ([0, 0, 0, 2] : List Nat) ≠ [0, 0, 0, 0])
      ∧ load_file_systemv buf_iso
          = .ok (.fcons [97] 16 32768 4 none false .nil) := by decide

/-- Claim C5 as amended: load_file_systemv validates only the first 8 bytes
(type 1, name offset 0, field A 0), failing with InvalidFSTError on any
deviation there; the total entry count (root included) is the root record's
field B, read as a big-endian u32 from bytes 8..12, and the record array is
then decoded from offset 12 with the string table at entryCount * 12. -/
theorem C5_header_validation (b : List Nat) :
    (valid_root_header b = false →
        ∃ m, load_file_systemv b = .error (.invalidFST m))
      ∧ (valid_root_header b = true → ∀ n, read_uint32 b 8 = .ok n →
        load_file_systemv b
          = match read_children b (n * 12) (b.length + 1) 12 1 n with
            | .error e => .error e
            | .ok x => .ok x.1) := by
  constructor
  · intro hv
    unfold load_file_systemv
    by_cases h1 : b.take 1 = [1]
    · by_cases h2 : (b.drop 1).take 3 = [0, 0, 0]
      · by_cases h3 : (b.drop 4).take 4 = [0, 0, 0, 0]
        · exfalso
          unfold valid_root_header at hv
          simp [h1, h2, h3, ← List.drop_one] at hv
        · refine ⟨"Invalid Root offset found", ?_⟩
          rw [if_neg (by simp [h1]),
            if_neg (by simp [← List.drop_one, h2]), if_pos (by simp [h3])]
      · refine ⟨"Invalid Root string offset found", ?_⟩
        rw [if_neg (by simp [h1]), if_pos (by simp [← List.drop_one, h2])]
    · exact ⟨"Invalid Root flag found", by rw [if_pos (by simp [h1])]⟩
  · intro hv n hn
    unfold valid_root_header at hv
    simp only [Bool.and_eq_true, decide_eq_true_eq] at hv
    obtain ⟨⟨h1, h2⟩, h3⟩ := hv
    unfold load_file_systemv
    rw [if_neg (by simp [h1]), if_neg (by simp [← List.drop_one, h2]),
      if_neg (by simp [h3]), hn]
    cases hrc : read_children b (n * 12) (b.length + 1) 12 1 n with
    | error e => simp [hrc]
    | ok x => simp [hrc]

/-- Witness for the amended C5: a one-byte buffer deviating in the first 8
bytes fails with InvalidFSTError, and on the valid buffer buf_iso the decode
proceeds from the entry count 2 read at bytes 8..12. -/
theorem C5_header_validation_witness :
    valid_root_header [0] = false
      ∧ (∃ m, load_file_systemv [0] = .error (.invalidFST m))
      ∧ valid_root_header buf_iso = true
      ∧ load_file_systemv buf_iso
          = match read_children buf_iso (2 * 12) (buf_iso.length + 1) 12 1 2 with
            | .error e => .error e
            | .ok x => .ok x.1 :=
  ⟨by decide, (C5_header_validation [0]).1 (by decide), by decide,
    (C5_header_validation buf_iso).2 (by decide) 2 (by decide)⟩

theorem read_u8_not_invalid (b : List Nat) (p : Nat) (m : String) :
    read_u8 b p ≠ .error (.invalidFST m) := by
  unfold read_u8
  cases b.drop p <;> simp

theorem read_uint32_not_invalid (b : List Nat) (p : Nat) (m : String) :
    read_uint32 b p ≠ .error (.invalidFST m) := by
  unfold read_uint32
  by_cases h : p + 4 ≤ b.length <;> simp [h]

theorem read_string_not_invalid (b : List Nat) (p : Nat) (m : String) :
    read_string b p ≠ .error (.invalidFST m) := by
  unfold read_string
  cases take_until_zero (b.drop p) <;> simp

/-- Claim C6, counterexample: the claim's own scenario.  buf_trunc declares
an entry count of 5 but holds only 3 records and no string table; decoding
passes the root checks, then the very first record's name read at the string
table base 5 * 12 = 60 runs past the 48-byte buffer.  The failure is a
low-level exhausted-buffer read error (in Python a struct.error or
unterminated read inside pyisotools.iohelper), not an InvalidFSTError:
load_file_systemv performs no entry-count consistency check at all. -/
theorem C6_truncated_fails_with_read_error :
    load_file_systemv buf_trunc = .error .eof
      ∧ is_invalid_fst (load_file_systemv buf_trunc) = false := by decide

theorem read_no_invalid (fuel : Nat) :
    (∀ b strTab pos cur m,
        read_node b strTab fuel pos cur ≠ .error (.invalidFST m))
      ∧ (∀ b strTab pos cur stop m,
        read_children b strTab fuel pos cur stop
          ≠ .error (.invalidFST m)) := by
  induction fuel with
  | zero =>
      constructor
      · intro b strTab pos cur m h
        unfold read_node at h
        simp at h
      · intro b strTab pos cur stop m h
        unfold read_children at h
        split at h <;> simp at h
  | succ fuel ih =>
      constructor
      · intro b strTab pos cur m h
        unfold read_node at h
        repeat' split at h
        all_goals try simp at h
        all_goals first
          | (rename_i e heq
             rw [h] at heq
             first
               | exact read_u8_not_invalid _ _ _ heq
               | exact read_uint32_not_invalid _ _ _ heq
               | exact read_string_not_invalid _ _ _ heq
               | exact ih.2 _ _ _ _ _ _ heq)
          | (cases hrs : read_string b (strTab + read_be3 b (pos + 1)) with
              | error e2 =>
                  rw [hrs] at h
                  simp at h
                  rw [h] at hrs
                  exact read_string_not_invalid _ _ _ hrs
              | ok nm =>
                  rw [hrs] at h
                  simp at h
                  first
                    | done
                    | (rename_i e3 heq3
                       rw [h] at heq3
                       exact ih.2 _ _ _ _ _ _ heq3))
      · intro b strTab pos cur stop m h
        unfold read_children at h
        repeat' split at h
        all_goals try simp at h
        all_goals
          rename_i e heq
          rw [h] at heq
          first
            | exact ih.1 _ _ _ _ _ heq
            | exact ih.2 _ _ _ _ _ _ heq

/-- Claim C6 as amended: InvalidFSTError can only arise from the 8-byte root
prefix check; once the prefix is valid, no code path of the decode loop
raises it (there is no entry-count consistency check), so a buffer whose
entry count disagrees with the records present either mis-parses trailing
bytes as records or fails with a low-level read error, never with
InvalidFSTError. -/
theorem C6_invalid_fst_only_from_root_prefix (b : List Nat) (m : String)
    (h : load_file_systemv b = .error (.invalidFST m)) :
    valid_root_header b = false := by
  by_contra hv
  rw [Bool.not_eq_false] at hv
  unfold valid_root_header at hv
  simp only [Bool.and_eq_true, decide_eq_true_eq] at hv
  obtain ⟨⟨h1, h2⟩, h3⟩ := hv
  unfold load_file_systemv at h
  rw [if_neg (by simp [h1]), if_neg (by simp [← List.drop_one, h2]),
    if_neg (by simp [h3])] at h
  cases hn : read_uint32 b 8 with
  | error e =>
      rw [hn] at h
      simp only [] at h
      injection h with h4
      rw [h4] at hn
      exact read_uint32_not_invalid b 8 m hn
  | ok n =>
      rw [hn] at h
      simp only [] at h
      cases hrc : read_children b (n * 12) (b.length + 1) 12 1 n with
      | error e =>
          rw [hrc] at h
          simp only [] at h
          injection h with h4
          rw [h4] at hrc
          exact (read_no_invalid (b.length + 1)).2 _ _ _ _ _ _ hrc
      | ok x =>
          rw [hrc] at h
          simp at h

/-- Witness for the amended C6: the empty-prefix buffer [0] does fail with
InvalidFSTError, and indeed its root prefix is invalid. -/
theorem C6_invalid_fst_witness :
    load_file_systemv [0] = .error (.invalidFST "Invalid Root flag found")
      ∧ valid_root_header [0] = false :=
  ⟨by decide, C6_invalid_fst_only_from_root_prefix [0] "Invalid Root flag found"
    (by decide)⟩

theorem beVal_be32 (n : Nat) (h : n < 4294967296) : beVal (be32 n) = n := by
  simp only [beVal, be32, List.foldl]
  omega

theorem beVal_be3 (n : Nat) (h : n < 16777216) : beVal (be3 n) = n := by
  simp only [beVal, be3, List.foldl]
  omega

theorem is_pref_split (l1 l2 s : List Nat) (h : is_pref (l1 ++ l2) s) :
    is_pref l1 s ∧ is_pref l2 (s.drop l1.length) := by
  obtain ⟨t, ht⟩ := h
  constructor
  · exact ⟨l2 ++ t, by rw [ht, List.append_assoc]⟩
  · refine ⟨t, ?_⟩
    rw [ht, List.append_assoc, List.drop_left]

theorem is_pref_len (l s : List Nat) (h : is_pref l s) : l.length ≤ s.length := by
  obtain ⟨t, ht⟩ := h
  rw [ht, List.length_append]
  omega

theorem drop_add (b : List Nat) (p k : Nat) :
    b.drop (p + k) = (b.drop p).drop k := by
  rw [List.drop_drop, Nat.add_comm]

theorem read_u8_of_pref (b : List Nat) (p x : Nat) (r : List Nat)
    (h : is_pref (x :: r) (b.drop p)) : read_u8 b p = .ok x := by
  obtain ⟨t, ht⟩ := h
  unfold read_u8
  rw [ht]
  rfl

theorem take_of_pref (l s : List Nat) (k : Nat) (h : is_pref l s)
    (hk : l.length = k) : s.take k = l := by
  obtain ⟨t, ht⟩ := h
  rw [ht, ← hk, List.take_left]

theorem read_uint32_of_pref (b : List Nat) (p n : Nat)
    (h : is_pref (be32 n) (b.drop p)) (hn : n < 4294967296) :
    read_uint32 b p = .ok n := by
  have hlen : 4 ≤ (b.drop p).length := by
    have := is_pref_len _ _ h
    simpa [be32] using this
  have hpb : p + 4 ≤ b.length := by
    rw [List.length_drop] at hlen
    omega
  unfold read_uint32
  rw [if_pos hpb, take_of_pref _ _ _ h (by simp [be32]), beVal_be32 n hn]

theorem read_be3_of_pref (b : List Nat) (p n : Nat)
    (h : is_pref (be3 n) (b.drop p)) (hn : n < 16777216) :
    read_be3 b p = n := by
  unfold read_be3
  rw [take_of_pref _ _ _ h (by simp [be3]), beVal_be3 n hn]

theorem take_until_zero_of_terminated (nm : List Nat) :
    ∀ t, (∀ x ∈ nm, x ≠ 0) → take_until_zero (nm ++ 0 :: t) = some nm := by
  induction nm with
  | nil => intro t _; rfl
  | cons x rest ih =>
      intro t hx
      have hx0 : x ≠ 0 := hx x (by simp)
      have : take_until_zero ((x :: rest) ++ 0 :: t)
          = (take_until_zero (rest ++ 0 :: t)).map (fun l => x :: l) := by
        cases x with
        | zero => exact absurd rfl hx0
        | succ y => rfl
      rw [this, ih t (fun y hy => hx y (by simp [hy]))]
      rfl

theorem read_string_of_pref (b : List Nat) (p : Nat) (nm : List Nat)
    (h : is_pref (nm ++ [0]) (b.drop p)) (hnm : ∀ x ∈ nm, x ≠ 0) :
    read_string b p = .ok nm := by
  obtain ⟨t, ht⟩ := h
  unfold read_string
  rw [ht, List.append_assoc, List.cons_append, List.nil_append]
  rw [take_until_zero_of_terminated nm t hnm]

theorem enc_rec_len (f : Forest) :
    ∀ pid c so, (enc_walk pid f c so).1.length = 12 * cnt_included f := by
  induction f with
  | nil => intro pid c so; simp [enc_walk, cnt_included]
  | fcons nm sz off al pos ex rest ih =>
      intro pid c so
      by_cases hex : ex = true <;>
        simp [enc_walk, cnt_included, hex, ih, be3, be32] <;> omega
  | dcons nm ex id dp dn ch rest ihc ihr =>
      intro pid c so
      by_cases hex : ex = true <;>
        simp [enc_walk, cnt_included, hex, ihc, ihr, be3, be32] <;> omega

theorem enc_str_len (f : Forest) :
    ∀ pid c so, (enc_walk pid f c so).2.1.length = str_len f := by
  induction f with
  | nil => intro pid c so; simp [enc_walk, str_len]
  | fcons nm sz off al pos ex rest ih =>
      intro pid c so
      by_cases hex : ex = true <;>
        simp [enc_walk, str_len, hex, ih] <;> omega
  | dcons nm ex id dp dn ch rest ihc ihr =>
      intro pid c so
      by_cases hex : ex = true <;>
        simp [enc_walk, str_len, hex, ihc, ihr] <;> omega

theorem enc_state (f : Forest) :
    ∀ pid c so, (enc_walk pid f c so).2.2
      = (c + cnt_included f, so + str_len f) := by
  induction f with
  | nil => intro pid c so; simp [enc_walk, cnt_included, str_len]
  | fcons nm sz off al pos ex rest ih =>
      intro pid c so
      by_cases hex : ex = true <;>
        simp [enc_walk, cnt_included, str_len, hex, ih, Prod.ext_iff] <;> omega
  | dcons nm ex id dp dn ch rest ihc ihr =>
      intro pid c so
      by_cases hex : ex = true <;>
        simp [enc_walk, cnt_included, str_len, hex, ihc, ihr, Prod.ext_iff] <;>
        omega

theorem dec_ready_cnt (f : Forest) :
    ∀ pid c so, dec_ready f pid c so = true → cnt_included f = cnt_all f := by
  induction f with
  | nil => intro pid c so _; rfl
  | fcons nm sz off al pos ex rest ih =>
      intro pid c so h
      simp only [dec_ready, Bool.and_eq_true, Bool.not_eq_true'] at h
      obtain ⟨⟨⟨⟨⟨⟨⟨_, _⟩, _⟩, hex⟩, _⟩, _⟩, _⟩, hrest⟩ := h
      simp [cnt_included, cnt_all, hex, ih pid (c + 1) (so + nm.length + 1) hrest]
  | dcons nm ex id dp dn ch rest ihc ihr =>
      intro pid c so h
      simp only [dec_ready, Bool.and_eq_true, Bool.not_eq_true'] at h
      obtain ⟨⟨⟨⟨⟨⟨⟨⟨⟨_, hex⟩, _⟩, _⟩, _⟩, _⟩, _⟩, _⟩, hch⟩, hrest⟩ := h
      simp [cnt_included, cnt_all, hex, ihc _ _ _ hch, ihr _ _ _ hrest]

theorem cnt_included_le (f : Forest) : cnt_included f ≤ cnt_all f := by
  induction f with
  | nil => exact le_refl 0
  | fcons nm sz off al pos ex rest ih =>
      by_cases hex : ex = true <;> simp [cnt_included, cnt_all, hex] <;> omega
  | dcons nm ex id dp dn ch rest ihc ihr =>
      by_cases hex : ex = true <;> simp [cnt_included, cnt_all, hex] <;> omega

theorem walk_cnt_included (f : Forest) :
    ∀ pid d c, cnt_included (pre_calc_walk pid f d c).1 = cnt_included f := by
  induction f with
  | nil => intro pid d c; rfl
  | fcons nm sz off al pos ex rest ih =>
      intro pid d c
      by_cases hex : ex = true <;> simp [pre_calc_walk, cnt_included, hex, ih]
  | dcons nm ex id dp dn ch rest ihc ihr =>
      intro pid d c
      by_cases hex : ex = true <;>
        simp [pre_calc_walk, cnt_included, hex, ihc, ihr]

theorem walk_cnt_all (f : Forest) :
    ∀ pid d c, cnt_all (pre_calc_walk pid f d c).1 = cnt_all f := by
  induction f with
  | nil => intro pid d c; rfl
  | fcons nm sz off al pos ex rest ih =>
      intro pid d c
      by_cases hex : ex = true <;> simp [pre_calc_walk, cnt_all, hex, ih]
  | dcons nm ex id dp dn ch rest ihc ihr =>
      intro pid d c
      by_cases hex : ex = true <;> simp [pre_calc_walk, cnt_all, hex, ihc, ihr]

theorem walk_str_len (f : Forest) :
    ∀ pid d c, str_len (pre_calc_walk pid f d c).1 = str_len f := by
  induction f with
  | nil => intro pid d c; rfl
  | fcons nm sz off al pos ex rest ih =>
      intro pid d c
      by_cases hex : ex = true <;> simp [pre_calc_walk, str_len, hex, ih]
  | dcons nm ex id dp dn ch rest ihc ihr =>
      intro pid d c
      by_cases hex : ex = true <;> simp [pre_calc_walk, str_len, hex, ihc, ihr]

theorem walk_cur (f : Forest) :
    ∀ pid d c, (pre_calc_walk pid f d c).2.2 = c + cnt_included f := by
  induction f with
  | nil => intro pid d c; simp [pre_calc_walk, cnt_included]
  | fcons nm sz off al pos ex rest ih =>
      intro pid d c
      by_cases hex : ex = true <;>
        simp [pre_calc_walk, cnt_included, hex, ih] <;> omega
  | dcons nm ex id dp dn ch rest ihc ihr =>
      intro pid d c
      by_cases hex : ex = true <;>
        simp [pre_calc_walk, cnt_included, hex, ihc, ihr] <;> omega

theorem walk_collect (f : Forest) :
    ∀ pid d c acc,
      collect_size (pre_calc_walk pid f d c).1 acc = collect_size f acc := by
  induction f with
  | nil => intro pid d c acc; rfl
  | fcons nm sz off al pos ex rest ih =>
      intro pid d c acc
      by_cases hex : ex = true <;> simp [pre_calc_walk, collect_size, hex, ih]
  | dcons nm ex id dp dn ch rest ihc ihr =>
      intro pid d c acc
      by_cases hex : ex = true <;>
        simp [pre_calc_walk, collect_size, hex, ihc, ihr]

theorem walk_d_mono (f : Forest) :
    ∀ pid d c, d ≤ (pre_calc_walk pid f d c).2.1 := by
  intro pid d c
  rw [pre_calc_walk_consumes]
  omega

theorem wf_nodes_no_forced (f : Forest) (h : wf_nodes f = true) :
    no_forced_files f = true := by
  induction f with
  | nil => rfl
  | fcons nm sz off al pos ex rest ih =>
      simp only [wf_nodes, Bool.and_eq_true, beq_iff_eq] at h
      obtain ⟨⟨⟨⟨⟨_, _⟩, hpos⟩, _⟩, _⟩, hrest⟩ := h
      have : pos = none := Option.isNone_iff_eq_none.mp hpos
      simp [no_forced_files, this, pos_truthy, ih hrest]
  | dcons nm ex id dp dn ch rest ihc ihr =>
      simp only [wf_nodes, Bool.and_eq_true] at h
      obtain ⟨⟨⟨_, _⟩, hch⟩, hrest⟩ := h
      simp [no_forced_files, ihc hch, ihr hrest]

theorem wf_nodes_no_excluded_dirs (f : Forest) (h : wf_nodes f = true) :
    no_excluded_dirs f = true := by
  induction f with
  | nil => rfl
  | fcons nm sz off al pos ex rest ih =>
      simp only [wf_nodes, Bool.and_eq_true, beq_iff_eq] at h
      obtain ⟨⟨⟨⟨⟨_, _⟩, _⟩, _⟩, _⟩, hrest⟩ := h
      simp [no_excluded_dirs, ih hrest]
  | dcons nm ex id dp dn ch rest ihc ihr =>
      simp only [wf_nodes, Bool.and_eq_true, Bool.not_eq_true'] at h
      obtain ⟨⟨⟨_, hex⟩, hch⟩, hrest⟩ := h
      simp [no_excluded_dirs, hex, ihc hch, ihr hrest]

theorem sum_sizes_le_collect (f : Forest) (h : wf_nodes f = true) :
    ∀ acc, acc + sum_sizes f ≤ collect_size f acc := by
  induction f with
  | nil => intro acc; simp [sum_sizes, collect_size]
  | fcons nm sz off al pos ex rest ih =>
      intro acc
      simp only [wf_nodes, Bool.and_eq_true, Bool.not_eq_true',
        beq_iff_eq] at h
      obtain ⟨⟨⟨⟨⟨_, hal⟩, hpos⟩, hex⟩, _⟩, hrest⟩ := h
      have hposn : pos = none := Option.isNone_iff_eq_none.mp hpos
      subst hex hposn hal
      simp only [sum_sizes, collect_size, pos_truthy, Bool.false_or,
        Bool.false_eq_true, if_false]
      have h1 : acc ≤ align_int acc 4 := le_align_int acc 4 (by omega)
      have h2 := ih hrest (align_int acc 4 + sz)
      omega
  | dcons nm ex id dp dn ch rest ihc ihr =>
      intro acc
      simp only [wf_nodes, Bool.and_eq_true, Bool.not_eq_true'] at h
      obtain ⟨⟨⟨_, hex⟩, hch⟩, hrest⟩ := h
      subst hex
      simp only [sum_sizes, collect_size, Bool.false_eq_true, if_false]
      have h1 := ihc hch acc
      have h2 := ihr hrest (collect_size ch acc)
      omega

theorem walk_idem (f : Forest) :
    ∀ pid d c,
      pre_calc_walk pid (pre_calc_walk pid f d c).1 d c
        = pre_calc_walk pid f d c := by
  induction f with
  | nil => intro pid d c; rfl
  | fcons nm sz off al pos ex rest ih =>
      intro pid d c
      by_cases hex : ex = true
      · simp only [pre_calc_walk, hex, if_true, ih]
      · simp only [Bool.not_eq_true] at hex
        subst hex
        simp only [pre_calc_walk, Bool.false_eq_true, if_false, ih]
  | dcons nm ex id dp dn ch rest ihc ihr =>
      intro pid d c
      by_cases hex : ex = true
      · simp only [pre_calc_walk, hex, if_true, ihc, ihr]
      · simp only [Bool.not_eq_true] at hex
        subst hex
        simp only [pre_calc_walk, Bool.false_eq_true, if_false,
          subtree_len, walk_cnt_included, ihc, ihr]

theorem is_pref_shift (b : List Nat) (p : Nat) (l1 l2 : List Nat)
    (h : is_pref (l1 ++ l2) (b.drop p)) :
    is_pref l2 (b.drop (p + l1.length)) := by
  rw [drop_add]
  exact (is_pref_split l1 l2 _ h).2

theorem is_pref_mono_idx (b l : List Nat) (p q : Nat)
    (h : is_pref l (b.drop p)) (hpq : p = q) : is_pref l (b.drop q) := by
  rwa [hpq] at h

theorem decode_enc (f : Forest) :
    ∀ b strTab pid c so pos fuel,
      dec_ready f pid c so = true →
      2 * cnt_all f ≤ fuel →
      is_pref (enc_walk pid f c so).1 (b.drop pos) →
      is_pref (enc_walk pid f c so).2.1 (b.drop (strTab + so)) →
      read_children b strTab fuel pos c (c + cnt_all f)
        = .ok (f, pos + 12 * cnt_all f, c + cnt_all f) := by
  induction f with
  | nil =>
      intro b strTab pid c so pos fuel _ _ _ _
      cases fuel <;> simp [read_children, cnt_all]
  | fcons nm sz off al pos0 ex rest ih =>
      intro b strTab pid c so pos fuel hdr hfuel hrec hstr
      simp only [dec_ready, Bool.and_eq_true, beq_iff_eq,
        Bool.not_eq_true', decide_eq_true_eq] at hdr
      obtain ⟨⟨⟨⟨⟨⟨⟨hnm, hal⟩, hposn⟩, hexf⟩, hoff⟩, hsz⟩, hso⟩, hrest⟩ := hdr
      have hposn2 : pos0 = none := Option.isNone_iff_eq_none.mp hposn
      subst hal hposn2 hexf
      simp only [enc_walk, Bool.false_eq_true, if_false] at hrec hstr
      have hrec1 : is_pref
          ((0 :: (be3 so ++ be32 off ++ be32 sz)))
          (b.drop pos) := (is_pref_split _ _ _ hrec).1
      have hrec2 : is_pref (enc_walk pid rest (c + 1) (so + nm.length + 1)).1
          (b.drop (pos + 12)) := by
        have := is_pref_shift b pos _ _ hrec
        simpa [be3, be32] using this
      have hstr1 : is_pref (nm ++ [0]) (b.drop (strTab + so)) :=
        (is_pref_split _ _ _ hstr).1
      have hstr2 : is_pref
          (enc_walk pid rest (c + 1) (so + nm.length + 1)).2.1
          (b.drop (strTab + (so + nm.length + 1))) := by
        have := is_pref_shift b (strTab + so) _ _ hstr
        have harith : strTab + so + (nm ++ [0]).length
            = strTab + (so + nm.length + 1) := by
          simp
          omega
        rwa [harith] at this
      have hu8 : read_u8 b pos = .ok 0 :=
        read_u8_of_pref b pos 0 _ hrec1
      have hb3 : read_be3 b (pos + 1) = so := by
        apply read_be3_of_pref
        · obtain ⟨t, ht⟩ := hrec1
          refine ⟨be32 off ++ be32 sz ++ t, ?_⟩
          rw [drop_add, ht]
          simp [be3, be32]
        · omega
      have hu32a : read_uint32 b (pos + 4) = .ok off := by
        apply read_uint32_of_pref
        · obtain ⟨t, ht⟩ := hrec1
          refine ⟨be32 sz ++ t, ?_⟩
          rw [drop_add, ht]
          simp [be3, be32]
        · omega
      have hu32b : read_uint32 b (pos + 8) = .ok sz := by
        apply read_uint32_of_pref
        · obtain ⟨t, ht⟩ := hrec1
          refine ⟨t, ?_⟩
          rw [drop_add, ht]
          simp [be3, be32]
        · omega
      have hrs : read_string b (strTab + so) = .ok nm :=
        read_string_of_pref b _ nm hstr1
          (fun x hx => by
            have := List.all_eq_true.mp hnm x hx
            simpa using this)
      have hcnt : cnt_all (Forest.fcons nm sz off 4 none false rest)
          = 1 + cnt_all rest := rfl
      rw [hcnt] at hfuel ⊢
      rw [show c + (1 + cnt_all rest) = c + 1 + cnt_all rest from by omega,
        show pos + 12 * (1 + cnt_all rest) = pos + 12 + 12 * cnt_all rest
          from by omega]
      cases fuel with
      | zero => omega
      | succ fl =>
        unfold read_children
        rw [if_pos (by omega)]
        cases fl with
        | zero => omega
        | succ g =>
          have hnode : read_node b strTab (g + 1) pos c
              = .ok (Forest.fcons nm sz off 4 none false, pos + 12, c + 1) := by
            unfold read_node
            rw [hu8]
            simp only [hb3, hu32a, hu32b, hrs]
            rw [if_neg (by omega)]
          simp only [hnode]
          have hsib := ih b strTab pid (c + 1) (so + nm.length + 1) (pos + 12)
            (g + 1) hrest (by omega) hrec2 hstr2
          simp only [hsib]
  | dcons nm ex id dp dn ch rest ihc ihr =>
      intro b strTab pid c so pos fuel hdr hfuel hrec hstr
      simp only [dec_ready, Bool.and_eq_true, beq_iff_eq,
        Bool.not_eq_true', decide_eq_true_eq] at hdr
      obtain ⟨⟨⟨⟨⟨⟨⟨⟨⟨hnm, hexf⟩, hid⟩, hdp⟩, hdn⟩, hpid⟩, hdnb⟩, hso⟩,
        hch⟩, hrest⟩ := hdr
      subst hexf
      rw [hid, hdp] at hfuel ⊢
      have hcntch : cnt_included ch = cnt_all ch := dec_ready_cnt ch _ _ _ hch
      simp only [enc_walk, Bool.false_eq_true, if_false] at hrec hstr
      have hstate : (enc_walk c ch (c + 1) (so + nm.length + 1)).2.2
          = (c + 1 + cnt_all ch, so + nm.length + 1 + str_len ch) := by
        rw [enc_state, hcntch]
      simp only [hstate] at hrec hstr
      have hsplitR := is_pref_split _ _ _ hrec
      have hrec1 : is_pref
          (1 :: (be3 so ++ be32 pid ++ be32 (subtree_len ch + c)))
          (b.drop pos) := (is_pref_split _ _ _ hsplitR.1).1
      have hrec2 : is_pref (enc_walk c ch (c + 1) (so + nm.length + 1)).1
          (b.drop (pos + 12)) :=
        is_pref_mono_idx b _ _ _ (is_pref_shift b pos _ _ hsplitR.1)
          (by simp [be3, be32])
      have hrec3 : is_pref (enc_walk pid rest (c + 1 + cnt_all ch)
            (so + nm.length + 1 + str_len ch)).1
          (b.drop (pos + 12 + 12 * cnt_all ch)) :=
        is_pref_mono_idx b _ _ _ (is_pref_shift b pos _ _ hrec)
          (by simp [be3, be32, enc_rec_len, hcntch]; omega)
      have hsplitS := is_pref_split _ _ _ hstr
      have hstr1 : is_pref (nm ++ [0]) (b.drop (strTab + so)) :=
        (is_pref_split _ _ _ hsplitS.1).1
      have hstr2 : is_pref (enc_walk c ch (c + 1) (so + nm.length + 1)).2.1
          (b.drop (strTab + (so + nm.length + 1))) :=
        is_pref_mono_idx b _ _ _ (is_pref_shift b (strTab + so) _ _ hsplitS.1)
          (by simp; omega)
      have hstr3 : is_pref (enc_walk pid rest (c + 1 + cnt_all ch)
            (so + nm.length + 1 + str_len ch)).2.1
          (b.drop (strTab + (so + nm.length + 1 + str_len ch))) :=
        is_pref_mono_idx b _ _ _ (is_pref_shift b (strTab + so) _ _ hstr)
          (by simp [enc_str_len]; omega)
      have hu8 : read_u8 b pos = .ok 1 :=
        read_u8_of_pref b pos 1 _ hrec1
      have hb3 : read_be3 b (pos + 1) = so := by
        apply read_be3_of_pref
        · obtain ⟨t, ht⟩ := hrec1
          refine ⟨be32 pid ++ be32 (subtree_len ch + c) ++ t, ?_⟩
          rw [drop_add, ht]
          simp [be3, be32]
        · omega
      have hu32a : read_uint32 b (pos + 4) = .ok pid := by
        apply read_uint32_of_pref
        · obtain ⟨t, ht⟩ := hrec1
          refine ⟨be32 (subtree_len ch + c) ++ t, ?_⟩
          rw [drop_add, ht]
          simp [be3, be32]
        · omega
      have hu32b : read_uint32 b (pos + 8) = .ok (subtree_len ch + c) := by
        apply read_uint32_of_pref
        · obtain ⟨t, ht⟩ := hrec1
          refine ⟨t, ?_⟩
          rw [drop_add, ht]
          simp [be3, be32]
        · rw [← hdn]; omega
      have hrs : read_string b (strTab + so) = .ok nm :=
        read_string_of_pref b _ nm hstr1
          (fun x hx => by
            have := List.all_eq_true.mp hnm x hx
            simpa using this)
      have hcnt : cnt_all (Forest.dcons nm false c pid dn ch rest)
          = 1 + cnt_all ch + cnt_all rest := rfl
      rw [hcnt] at hfuel ⊢
      rw [hdn]
      rw [show c + (1 + cnt_all ch + cnt_all rest)
            = (c + 1 + cnt_all ch) + cnt_all rest from by omega,
        show pos + 12 * (1 + cnt_all ch + cnt_all rest)
            = (pos + 12 + 12 * cnt_all ch) + 12 * cnt_all rest from by omega]
      cases fuel with
      | zero => omega
      | succ fl =>
        unfold read_children
        rw [if_pos (by omega)]
        cases fl with
        | zero => omega
        | succ g =>
          have hchildren := ihc b strTab c (c + 1) (so + nm.length + 1)
            (pos + 12) g hch (by omega) hrec2 hstr2
          have hstop : subtree_len ch + c = c + 1 + cnt_all ch := by
            unfold subtree_len
            omega
          have hnode : read_node b strTab (g + 1) pos c
              = .ok (Forest.dcons nm false c pid (subtree_len ch + c) ch,
                  pos + 12 + 12 * cnt_all ch, c + 1 + cnt_all ch) := by
            unfold read_node
            rw [hu8]
            simp only [hb3, hu32a, hu32b, hrs]
            rw [hstop]
            simp only [hchildren, if_true]
          simp only [hnode]
          have hsib := ihr b strTab pid (c + 1 + cnt_all ch)
            (so + nm.length + 1 + str_len ch) (pos + 12 + 12 * cnt_all ch)
            (g + 1) hrest (by omega) hrec3 hstr3
          simp only [hsib]

theorem wf_cnt (f : Forest) (h : wf_nodes f = true) :
    cnt_included f = cnt_all f := by
  induction f with
  | nil => rfl
  | fcons nm sz off al pos ex rest ih =>
      simp only [wf_nodes, Bool.and_eq_true, Bool.not_eq_true'] at h
      obtain ⟨⟨⟨⟨⟨_, _⟩, _⟩, hex⟩, _⟩, hrest⟩ := h
      simp [cnt_included, cnt_all, hex, ih hrest]
  | dcons nm ex id dp dn ch rest ihc ihr =>
      simp only [wf_nodes, Bool.and_eq_true, Bool.not_eq_true'] at h
      obtain ⟨⟨⟨_, hex⟩, hch⟩, hrest⟩ := h
      simp [cnt_included, cnt_all, hex, ihc hch, ihr hrest]

theorem save_structure (f : Forest) :
    save_file_systemv f
      = [1, 0, 0, 0, 0, 0, 0, 0] ++ (be32 (1 + cnt_included f)
          ++ ((enc_walk 0 f 1 0).1 ++ (enc_walk 0 f 1 0).2.1)) := by
  simp [save_file_systemv, be32]

theorem load_of_save (f : Forest) (h : dec_ready f 0 1 0 = true)
    (hcnt : 1 + cnt_all f < 4294967296) :
    load_file_systemv (save_file_systemv f) = .ok f := by
  have hcnti : cnt_included f = cnt_all f := dec_ready_cnt f 0 1 0 h
  have hb := save_structure f
  have hdrop8 : (save_file_systemv f).drop 8
      = be32 (1 + cnt_included f) ++ ((enc_walk 0 f 1 0).1
          ++ (enc_walk 0 f 1 0).2.1) := by
    rw [hb]
    rw [show (8 : Nat) = ([1, 0, 0, 0, 0, 0, 0, 0] : List Nat).length from rfl]
    exact List.drop_left _ _
  have hdrop12 : (save_file_systemv f).drop 12
      = (enc_walk 0 f 1 0).1 ++ (enc_walk 0 f 1 0).2.1 := by
    have : (save_file_systemv f).drop 12 = ((save_file_systemv f).drop 8).drop 4 := by
      rw [← drop_add]
    rw [this, hdrop8]
    rw [show (4 : Nat) = (be32 (1 + cnt_included f)).length from by simp [be32]]
    exact List.drop_left _ _
  have hdropstr : (save_file_systemv f).drop (12 + 12 * cnt_all f)
      = (enc_walk 0 f 1 0).2.1 := by
    rw [drop_add, hdrop12]
    rw [show 12 * cnt_all f = ((enc_walk 0 f 1 0).1).length from by
      rw [enc_rec_len, hcnti]]
    exact List.drop_left _ _
  have hn : read_uint32 (save_file_systemv f) 8 = .ok (1 + cnt_all f) := by
    apply read_uint32_of_pref
    · rw [hdrop8, hcnti]
      exact ⟨_, rfl⟩
    · exact hcnt
  have hfuel : 2 * cnt_all f ≤ (save_file_systemv f).length + 1 := by
    have : (save_file_systemv f).length
        = 8 + (4 + (((enc_walk 0 f 1 0).1).length
            + ((enc_walk 0 f 1 0).2.1).length)) := by
      rw [hb]
      simp [be32]
      omega
    rw [this, enc_rec_len, hcnti]
    omega
  have hrc := decode_enc f (save_file_systemv f) ((1 + cnt_all f) * 12) 0 1 0 12
    ((save_file_systemv f).length + 1) h hfuel
    (by rw [hdrop12]; exact ⟨_, rfl⟩)
    (by
      rw [show (1 + cnt_all f) * 12 + 0 = 12 + 12 * cnt_all f from by omega]
      rw [hdropstr]
      exact ⟨[], by simp⟩)
  unfold load_file_systemv
  rw [if_neg (by rw [hb]; simp), if_neg (by rw [hb]; simp),
    if_neg (by rw [hb]; simp), hn]
  simp only [hrc]

theorem dec_ready_of_planned (f : Forest) :
    ∀ pid d c so,
      wf_nodes f = true →
      (pre_calc_walk pid f d c).2.1 + 3 < 4294967296 →
      c + cnt_all f < 4294967296 →
      so + str_len f ≤ 16777216 →
      pid < 4294967296 →
      dec_ready (pre_calc_walk pid f d c).1 pid c so = true := by
  induction f with
  | nil => intro pid d c so _ _ _ _ _; rfl
  | fcons nm sz off al pos ex rest ih =>
      intro pid d c so hwf hD hc hso hpid
      simp only [wf_nodes, Bool.and_eq_true, Bool.not_eq_true',
        beq_iff_eq, decide_eq_true_eq] at hwf
      obtain ⟨⟨⟨⟨⟨hnm, hal⟩, hpos⟩, hex⟩, hsz⟩, hrest⟩ := hwf
      have hposn : pos = none := Option.isNone_iff_eq_none.mp hpos
      subst hal hposn hex
      simp only [pre_calc_walk, Bool.false_eq_true, if_false] at hD ⊢
      have hmonorest : d + sz
          ≤ (pre_calc_walk pid rest (d + sz) (c + 1)).2.1 :=
        walk_d_mono rest pid _ _
      have hofs : align_int d 4 ≤ d + 3 := by
        have := align_int_le d 4
        omega
      simp only [cnt_all, str_len, Bool.false_eq_true, if_false] at hc hso
      have hnm2 : nm.all (fun x => x != 0) = true := by
        simp only [List.all_eq_true] at hnm ⊢
        intro x hx
        have := hnm x hx
        simp only [Bool.and_eq_true] at this
        exact this.1
      have hoffb : align_int d 4 < 4294967296 := by
        have h1 : align_int d 4 ≤ d + 3 := by
          have := align_int_le d 4
          omega
        have h2 : d ≤ align_int d 4 := le_align_int d 4 (by omega)
        omega
      have hsob : so < 16777216 := by omega
      have hrest2 := ih pid (d + sz) (c + 1) (so + nm.length + 1)
        hrest hD (by omega) (by omega) hpid
      simp [dec_ready, hnm2, hoffb, hsz, hsob, hrest2]
  | dcons nm ex id dp dn ch rest ihc ihr =>
      intro pid d c so hwf hD hc hso hpid
      simp only [wf_nodes, Bool.and_eq_true, Bool.not_eq_true'] at hwf
      obtain ⟨⟨⟨hnm, hex⟩, hch⟩, hrest⟩ := hwf
      subst hex
      simp only [pre_calc_walk, Bool.false_eq_true, if_false] at hD ⊢
      have hcur : (pre_calc_walk c ch d (c + 1)).2.2 = c + 1 + cnt_all ch := by
        rw [walk_cur, wf_cnt ch hch]
      rw [hcur] at hD ⊢
      have hmonorest : (pre_calc_walk c ch d (c + 1)).2.1
          ≤ (pre_calc_walk pid rest (pre_calc_walk c ch d (c + 1)).2.1
              (c + 1 + cnt_all ch)).2.1 :=
        walk_d_mono rest pid _ _
      simp only [cnt_all, str_len, Bool.false_eq_true, if_false] at hc hso
      have hcntle := cnt_included_le ch
      have hnm2 : nm.all (fun x => x != 0) = true := by
        simp only [List.all_eq_true] at hnm ⊢
        intro x hx
        have := hnm x hx
        simp only [Bool.and_eq_true] at this
        exact this.1
      have hdneq : subtree_len ch + c
          = subtree_len (pre_calc_walk c ch d (c + 1)).1 + c := by
        unfold subtree_len
        rw [walk_cnt_included]
      have hdnb : subtree_len ch + c < 4294967296 := by
        unfold subtree_len
        omega
      have hsob : so < 16777216 := by omega
      have hchmono : d ≤ (pre_calc_walk c ch d (c + 1)).2.1 :=
        walk_d_mono ch c _ _
      have hch2 := ihc c d (c + 1) (so + nm.length + 1) hch (by omega)
        (by omega) (by omega) (by omega)
      have hrest2 := ihr pid (pre_calc_walk c ch d (c + 1)).2.1
        (c + 1 + cnt_all ch) (so + nm.length + 1 + str_len ch)
        hrest (by omega) (by omega) (by omega) hpid
      simp [dec_ready, hnm2, hpid, hdnb, hsob, hch2, ← hdneq,
        walk_cnt_all, walk_str_len, wf_cnt ch hch, hrest2]

/-- Claim C1, counterexample: buf_iso is a valid FST image (one 16-byte file
a at offset 32768) that decodes cleanly, but decoding it and re-encoding
with save_file_systemv after the planner pass (useConfig=False, preCalc=True,
override tables untouched) does not reproduce the original bytes: the
planner recomputes the file offset as MaxSize - 16 = 1459978224 from the top
of the disc, replacing the stored 32768, so the round trip is not
byte-stable for arbitrary valid images. -/
theorem C1_round_trip_fails_on_foreign_image :
    load_file_systemv buf_iso = .ok (.fcons [97] 16 32768 4 none false .nil)
      ∧ round_trip buf_iso ≠ buf_iso := by decide

/-- Claim C1 as amended: the byte-exact round trip holds precisely for
images whose recorded file offsets already equal the planner's assignment,
e.g. any image produced by this tool's own planner-plus-encoder from a tree
with default metadata (alignment 4, no forced locations, no exclusions,
nonempty-byte names, in-range sizes): decoding such an FST returns exactly
the planned tree, and re-encoding it after the identical planner pass
reproduces the buffer byte for byte. -/
theorem C1_round_trip_of_planned (f : Forest) (h : wf_default f = true) :
    load_file_systemv (save_file_systemv_pre f)
        = .ok (pre_calc_metadata (MaxSize - get_auto_blob_size f) f).1
      ∧ round_trip (save_file_systemv_pre f) = save_file_systemv_pre f := by
  simp only [wf_default, Bool.and_eq_true, decide_eq_true_eq] at h
  obtain ⟨⟨⟨hwf, hstr⟩, hblob⟩, hcnt⟩ := h
  have hM : MaxSize = 1459978240 := rfl
  have hfinal : (pre_calc_walk 0 f
        (align_int (MaxSize - get_auto_blob_size f) 4) 1).2.1
      = align_int (MaxSize - get_auto_blob_size f) 4 + sum_sizes f :=
    pre_calc_walk_consumes f 0 _ 1
  have hsum : sum_sizes f ≤ get_auto_blob_size f := by
    have := sum_sizes_le_collect f hwf 0
    simpa [get_auto_blob_size] using this
  have halle : align_int (MaxSize - get_auto_blob_size f) 4
      ≤ (MaxSize - get_auto_blob_size f) + 3 := by
    have := align_int_le (MaxSize - get_auto_blob_size f) 4
    omega
  have hD : (pre_calc_walk 0 f
        (align_int (MaxSize - get_auto_blob_size f) 4) 1).2.1 + 3
      < 4294967296 := by
    rw [hfinal]
    omega
  have hdr : dec_ready
      (pre_calc_metadata (MaxSize - get_auto_blob_size f) f).1 0 1 0 = true := by
    unfold pre_calc_metadata
    exact dec_ready_of_planned f 0 _ 1 0 hwf hD (by omega) (by omega) (by omega)
  have hload : load_file_systemv (save_file_systemv
        (pre_calc_metadata (MaxSize - get_auto_blob_size f) f).1)
      = .ok (pre_calc_metadata (MaxSize - get_auto_blob_size f) f).1 := by
    apply load_of_save _ hdr
    unfold pre_calc_metadata
    rw [walk_cnt_all]
    exact hcnt
  have hblobP : get_auto_blob_size
      (pre_calc_metadata (MaxSize - get_auto_blob_size f) f).1
      = get_auto_blob_size f := by
    unfold get_auto_blob_size pre_calc_metadata
    exact walk_collect f 0 _ 1 0
  have hPP : (pre_calc_metadata (MaxSize - get_auto_blob_size
        (pre_calc_metadata (MaxSize - get_auto_blob_size f) f).1)
        (pre_calc_metadata (MaxSize - get_auto_blob_size f) f).1).1
      = (pre_calc_metadata (MaxSize - get_auto_blob_size f) f).1 := by
    rw [hblobP]
    unfold pre_calc_metadata
    rw [walk_idem]
  refine ⟨hload, ?_⟩
  unfold round_trip
  rw [show save_file_systemv_pre f = save_file_systemv
      (pre_calc_metadata (MaxSize - get_auto_blob_size f) f).1 from rfl]
  rw [hload]
  show save_file_systemv_pre
      (pre_calc_metadata (MaxSize - get_auto_blob_size f) f).1
    = save_file_systemv (pre_calc_metadata (MaxSize - get_auto_blob_size f) f).1
  unfold save_file_systemv_pre
  rw [hPP]

/-- Witness for the amended C1 at a concrete well-formed tree. -/
theorem C1_round_trip_witness :
    wf_default tree_plain = true
      ∧ round_trip (save_file_systemv_pre tree_plain)
          = save_file_systemv_pre tree_plain :=
  ⟨by decide, (C1_round_trip_of_planned tree_plain (by decide)).2⟩
